import Mathlib

/-!
Verification of the task-manager backend (Go/Gin + MongoDB) against its
natural-language specification.  The Go code is shallowly embedded: Mongo
collections become Lean lists of records, update statements become list
transformations, and fallible operations return Except/Option.  Each
definition mirrors one Go function of the repository (file and function
named in its doc comment).
-/

namespace TaskManager

/-! ## Shared access values

Modelled from the spec: the database model file declaring the SharedAccess
type and its constants is not part of the provided sources (only its users
are).  The spec glossary lists the three visibility modes of a task/note as
the string values given below.  SharedAccess is a string type in the data
model, matching how the values appear in JSON payloads of the tests. -/
abbrev SharedAccess := String

/-- Modelled from the spec: the public visibility mode. -/
def SharedAccessPublic : SharedAccess := "public"

/-- Modelled from the spec: the same-email-domain visibility mode. -/
def SharedAccessDomain : SharedAccess := "domain"

/-- Modelled from the spec: the meeting-attendees visibility mode. -/
def SharedAccessMeetingAttendees : SharedAccess := "meeting_attendees"

/-- Modelled from the spec: constants.StringSharedAccessPublic, the request
string for public sharing (the constants file is not in the sources). -/
def StringSharedAccessPublic : String := "public"

/-- Modelled from the spec: constants.StringSharedAccessDomain, the request
string for domain sharing. -/
def StringSharedAccessDomain : String := "domain"

/-- Modelled from the spec: external.TASK_SOURCE_ID_GT_TASK, the source id of
the built-in General Task source (only its uses are in the sources; the
identity of the value is irrelevant, only equality with task source ids). -/
def TASK_SOURCE_ID_GT_TASK : String := "gt_task"

/-! ## Email domains (backend/database GetEmailDomain)

Strings are embedded as lists of characters so that the splitting logic of
the Go standard library strings.Split can be reasoned about by structural
induction. -/
/-- Embedding of Go strings.Split(s, sep) for a one-character separator:
splits at every occurrence of the separator, keeping empty segments. -/
def goSplit (sep : Char) : List Char → List (List Char)
  | [] => [[]]
  | c :: rest =>
    if c = sep then [] :: goSplit sep rest
    else
      match goSplit sep rest with
      | [] => [[c]]
      | seg :: segs => (c :: seg) :: segs

/-- Embedding of database.GetEmailDomain (backend/database): errors when the
email contains no at-sign or when the element at index 1 of the split (the
segment between the first at-sign and the next one, or the end) is empty;
otherwise returns that segment.  The Go index expression Split(email)[1] is
rendered with getD; lemma goSplit_length_two shows the index is in bounds
whenever the email contains the separator. -/
def GetEmailDomain (email : List Char) : Except String (List Char) :=
  if email.contains '@' then
    let domain := (goSplit '@' email).getD 1 []
    if domain = [] then .error "invalid email address"
    else .ok domain
  else .error "invalid email address"

/-- The segment of a character list strictly between the first occurrence of
the separator and the following occurrence (or the end of the list).  This is
the specification-side description of what GetEmailDomain returns. -/
def segmentAfterFirst (sep : Char) (l : List Char) : List Char :=
  ((l.dropWhile (fun c => c ≠ sep)).drop 1).takeWhile (fun c => c ≠ sep)

/-! ## Stable ordering by id_ordering

The Mongo queries of the reordering code sort ascending by the id_ordering
field (options.Find().SetSort on id_ordering).  The sort is embedded as a
stable insertion sort parameterised by the integer key. -/
/-- Inserts an element into a list sorted by key, after all strictly smaller
keys and before equal or larger ones (stable with respect to the original
order when used by sortByKey). -/
def insertByKey (key : α → Int) (t : α) : List α → List α
  | [] => [t]
  | u :: us => if key u < key t then u :: insertByKey key t us else t :: u :: us

/-- Stable insertion sort ascending by the given integer key. -/
def sortByKey (key : α → Int) : List α → List α
  | [] => []
  | t :: ts => insertByKey key t (sortByKey key ts)

/-! ## Data model

ObjectIDs are embedded as natural numbers and primitive.DateTime values
(milliseconds since the Unix epoch, possibly negative) as integers.  Optional
bson fields backed by Go pointers become Option values; a Mongo filter of the
form field ne true matches both a missing field (none) and an explicit false,
which the embedding captures by comparing with some true.  The field list of
the Task structure is taken from the uses of database.Task across
backend/api/task_modify.go and the database helpers. -/
structure ExternalTaskStatus where
  externalID : String
  isCompletedStatus : Bool
deriving DecidableEq, Repr

structure ExternalTaskPriority where
  externalID : String
  -- priority_normalized is a float64 in Go; it is only ever copied, never
  -- computed with, so an integer stands in for the numeric payload
  priorityNormalized : Int
deriving DecidableEq, Repr

structure Task where
  id : Nat := 0
  userId : Nat := 0
  idExternal : String := ""
  sourceId : String := ""
  idOrdering : Int := 0
  idTaskSection : Nat := 0
  parentTaskId : Option Nat := none
  hasBeenReordered : Bool := false
  isCompleted : Option Bool := none
  isDeleted : Option Bool := none
  completedAt : Int := 0
  deletedAt : Int := 0
  sharedUntil : Int := 0
  sharedAccess : Option SharedAccess := none
  title : Option String := none
  body : Option String := none
  dueDate : Option Int := none
  timeAllocation : Option Int := none
  status : Option ExternalTaskStatus := none
  previousStatus : Option ExternalTaskStatus := none
  completedStatus : Option ExternalTaskStatus := none
  allStatuses : List ExternalTaskStatus := []
  allExternalPriorities : List ExternalTaskPriority := []
  externalPriority : Option ExternalTaskPriority := none
  priorityNormalized : Option Int := none
  taskNumber : Option Int := none
deriving DecidableEq, Repr

structure User where
  id : Nat
  email : List Char
deriving DecidableEq, Repr

structure Note where
  id : Nat := 0
  userId : Nat := 0
  sharedUntil : Int := 0
  isDeleted : Option Bool := none
  sharedAccess : Option SharedAccess := none
  linkedEventId : Option Nat := none
deriving DecidableEq, Repr

structure CalendarEvent where
  id : Nat
  userId : Nat
  attendeeEmails : List (List Char)
deriving DecidableEq, Repr

/-- Embedding of database.ReorderableSubmodel (backend/database): the id and
id_ordering projection used by AdjustOrderingIDsForCollection. -/
structure ReorderableSubmodel where
  id : Nat
  idOrdering : Int
deriving DecidableEq, Repr

/-! ## Reordering (backend/api/task_modify.go ReOrderTask and
backend/database AdjustOrderingIDsForCollection) -/
/-- The per-document effect of the first UpdateOne of ReOrderTask: always
sets has_been_reordered, sets id_ordering when an ordering was supplied and
id_task_section when a section was supplied. -/
def applyReorderSet (k : Option Int) (sec : Option Nat) (t : Task) : Task :=
  { t with
    hasBeenReordered := true
    idOrdering := k.getD t.idOrdering
    idTaskSection := sec.getD t.idTaskSection }

/-- The filter of the first UpdateOne of ReOrderTask: id and user_id.  Mongo
document ids are unique, so the single-document update is embedded as a map
over all (in the theorems, the unique) matching documents. -/
def matchesTaskAndUser (taskID userID : Nat) (t : Task) : Bool :=
  t.id == taskID && t.userId == userID

/-- The scope filters shared by the shift and renumber queries of
ReOrderTask: a subtask scopes to its parent, a top-level task to its section
and to not-completed tasks. -/
def inReorderScope (task0 : Task) (sec : Nat) (t : Task) : Bool :=
  match task0.parentTaskId with
  | some p => t.parentTaskId == some p
  | none => t.idTaskSection == sec && !(t.isCompleted == some true)

/-- The dbQuery of the UpdateMany of ReOrderTask (the shift of the other
tasks): different id, not deleted, id_ordering at least the target, same
user, and the scope filter. -/
def reorderShiftFilter (taskID userID : Nat) (k : Int) (task0 : Task)
    (sec : Nat) (t : Task) : Bool :=
  !(t.id == taskID) && !(t.isDeleted == some true) && k ≤ t.idOrdering &&
    t.userId == userID && inReorderScope task0 sec t

/-- The taskQuery of ReOrderTask, used to fetch the tasks whose ordering ids
are renumbered afterwards: same user, not deleted, and the scope filter. -/
def reorderScopeQuery (userID : Nat) (task0 : Task) (sec : Nat) (t : Task) : Bool :=
  t.userId == userID && !(t.isDeleted == some true) && inReorderScope task0 sec t

/-- Rank assignments produced by walking a sorted task list: the i-th task
(0-based, starting at the given index) is assigned ordering i + 1. -/
def rankAssignments (i : Nat) : List Task → List (Nat × Int)
  | [] => []
  | t :: ts => (t.id, (i : Int) + 1) :: rankAssignments (i + 1) ts

/-- Applies the per-id ordering assignments of the renumbering pass. -/
def applyAssignments (assignments : List (Nat × Int)) (t : Task) : Task :=
  match assignments.lookup t.id with
  | some o => { t with idOrdering := o }
  | none => t

/-- Modelled from the spec: api.updateOrderingIDsV2 is called by ReOrderTask
under the comment that it removes gaps in ordering IDs, but its body is not
among the provided sources.  Following the spec (reordering is renumbered to
remove gaps) and the in-source renumbering loop of
AdjustOrderingIDsForCollection, it walks the scoped tasks in ascending
id_ordering order and stores index + 1 as each task's id_ordering.  The
per-id updates are applied to the collection through an id lookup. -/
def updateOrderingIDsV2 (db : List Task) (q : Task → Bool) : List Task :=
  db.map (applyAssignments
    (rankAssignments 0 (sortByKey (fun t => t.idOrdering) (db.filter q))))

/-- Embedding of api.ReOrderTask (backend/api/task_modify.go): first
UpdateOne sets the moved task's fields; when no ordering was supplied the
function stops there; otherwise the UpdateMany shifts the other in-scope
tasks whose ordering is at least the target, and updateOrderingIDsV2
renumbers the scoped tasks to remove gaps.  A missing task yields the 404
error of the Go code. -/
def reorderSetPhase (db : List Task) (taskID userID : Nat)
    (IDOrdering : Option Int) (IDTaskSection : Option Nat) : List Task :=
  db.map fun t =>
    if matchesTaskAndUser taskID userID t then
      applyReorderSet IDOrdering IDTaskSection t
    else t

def reorderShiftPhase (db : List Task) (taskID userID : Nat) (k : Int)
    (task0 : Task) (sec : Nat) : List Task :=
  db.map fun t =>
    if reorderShiftFilter taskID userID k task0 sec t then
      { t with idOrdering := t.idOrdering + 1 }
    else t

def ReOrderTask (db : List Task) (taskID userID : Nat) (IDOrdering : Option Int)
    (IDTaskSection : Option Nat) : Except String (List Task) :=
  match db.find? (matchesTaskAndUser taskID userID) with
  | none => .error "task not found"
  | some task0 =>
    let db1 := reorderSetPhase db taskID userID IDOrdering IDTaskSection
    match IDOrdering with
    | none => .ok db1
    | some k =>
      let sec := IDTaskSection.getD task0.idTaskSection
      let db2 := reorderShiftPhase db1 taskID userID k task0 sec
      .ok (updateOrderingIDsV2 db2 (reorderScopeQuery userID task0 sec))

/-- Embedding of the renumbering loop of
database.AdjustOrderingIDsForCollection (backend/database): the user's items
are fetched in ascending id_ordering order and the i-th item's id_ordering
is set to i + 1 (the Go loop skips the write when the value already matches,
which has the same final state). -/
def normalizeOrderingIDs (items : List ReorderableSubmodel) : List ReorderableSubmodel :=
  renumberFrom 0 (sortByKey (fun s => s.idOrdering) items)
where
  renumberFrom (i : Nat) : List ReorderableSubmodel → List ReorderableSubmodel
    | [] => []
    | s :: ss => { s with idOrdering := (i : Int) + 1 } :: renumberFrom (i + 1) ss

/-! ## Generic cached-item collections (backend/database)

The upsert helpers GetOrCreateWithCollection and
FindOneAndUpdateWithCollection operate uniformly on the task, note, calendar
event and pull request collections; the record type is therefore generic in
the non-key payload.  The key triple mirrors getDBQuery.  The reconciling
callers (UpdateOrCreatePullRequest, UpdateOrCreateCalendarEvent, ...) pass
documents whose key fields repeat the query keys, so the $set of the whole
document is embedded as a payload replacement. -/
structure DbRec (α : Type) where
  userId : Nat
  sourceId : String
  idExternal : String
  fields : α
deriving DecidableEq, Repr

/-- Embedding of database.getDBQuery with no additional filters: the
conjunction of the three keys id_external, source_id and user_id, in the
order they appear in the Go bson document. -/
def getDBQuery (userID : Nat) (IDExternal sourceID : String) (r : DbRec α) : Bool :=
  r.idExternal == IDExternal && r.sourceId == sourceID && r.userId == userID

/-- Key triple of a cached record, in the argument order of the helpers. -/
def keyOf (r : DbRec α) : Nat × String × String := (r.userId, r.idExternal, r.sourceId)

/-- Replaces the first record matching the predicate. -/
def updateFirst (p : DbRec α → Bool) (f : DbRec α → DbRec α) :
    List (DbRec α) → List (DbRec α)
  | [] => []
  | r :: rs => if p r then f r :: rs else r :: updateFirst p f rs

/-- The effect of an UpdateOne with $setOnInsert and upsert true against
getDBQuery: inserts a document carrying the query keys and the given fields
when no document matches the key triple, and changes nothing otherwise. -/
def upsertOnInsert (collection : List (DbRec α)) (userID : Nat)
    (IDExternal sourceID : String) (ins : α) : List (DbRec α) :=
  if collection.any (getDBQuery userID IDExternal sourceID) then collection
  else collection ++ [(⟨userID, sourceID, IDExternal, ins⟩ : DbRec α)]

/-- Embedding of database.GetOrCreateWithCollection (backend/database): the
$setOnInsert upsert followed by a FindOne returning the first match. -/
def GetOrCreateWithCollection (collection : List (DbRec α)) (userID : Nat)
    (IDExternal sourceID : String) (fieldsToInsertIfMissing : α) :
    List (DbRec α) × Option (DbRec α) :=
  let collection' := upsertOnInsert collection userID IDExternal sourceID
    fieldsToInsertIfMissing
  (collection', collection'.find? (getDBQuery userID IDExternal sourceID))

/-- The FindOneAndUpdate call of FindOneAndUpdateWithCollection: $set with
upsert true and ReturnDocument After updates the matching document in place
or inserts a fresh one carrying the query keys, and returns the post-update
document. -/
def findOneAndUpdateCore (collection : List (DbRec α)) (userID : Nat)
    (IDExternal sourceID : String) (fields : α) : List (DbRec α) × DbRec α :=
  match collection.find? (getDBQuery userID IDExternal sourceID) with
  | some r =>
    (updateFirst (getDBQuery userID IDExternal sourceID)
        (fun x => { x with fields := fields }) collection,
      { r with fields := fields })
  | none => (collection ++ [(⟨userID, sourceID, IDExternal, fields⟩ : DbRec α)],
      ⟨userID, sourceID, IDExternal, fields⟩)

/-- Embedding of database.FindOneAndUpdateWithCollection (backend/database):
an optional $setOnInsert upsert (used by UpdateOrCreateTask) followed by the
FindOneAndUpdate with $set, upsert true and ReturnDocument After. -/
def FindOneAndUpdateWithCollection (collection : List (DbRec α)) (userID : Nat)
    (IDExternal sourceID : String) (fieldsToInsertIfMissing : Option α)
    (fields : α) : List (DbRec α) × DbRec α :=
  match fieldsToInsertIfMissing with
  | some ins =>
    findOneAndUpdateCore (upsertOnInsert collection userID IDExternal sourceID ins)
      userID IDExternal sourceID fields
  | none => findOneAndUpdateCore collection userID IDExternal sourceID fields

/-! ## Github pull request conditional fetch (backend/external) -/
structure PullRequest where
  -- primitive.NilObjectID is embedded as none: a nil id marks a document
  -- that does not come from the database cache
  id : Option Nat := none
  userId : Nat := 0
  idExternal : String := ""
  sourceId : String := ""
  lastFetched : Int := 0
  isCompleted : Option Bool := none
  title : String := ""
deriving DecidableEq, Repr

/-- Embedding of database.GetPullRequestByExternalID backed by
FindOneExternalWithCollection (backend/database): first document matching
id_external and user_id. -/
def GetPullRequestByExternalID (db : List PullRequest) (externalID : String)
    (userID : Nat) : Option PullRequest :=
  db.find? fun r => r.idExternal == externalID && r.userId == userID

/-- Go time.Time.IsZero on a primitive.DateTime of the given milliseconds:
primitive.DateTime(0).Time() is the Unix epoch, which is not the Go zero
time; only this millisecond value maps to the zero time (January 1, year 1). -/
def goDateTimeIsZero (ms : Int) : Bool := ms == -62135596800000

/-- The headers of the conditional request built by
pullRequestHasBeenModified (backend/external): Accept always, Authorization
when a token is available, and If-Modified-Since carrying the cached
LastFetched time whenever that time is not the Go zero time.  The Go code
renders the time with a date format; the embedding keeps the time value. -/
structure PRConditionalRequest where
  accept : String
  authorization : Option String
  ifModifiedSince : Option Int
deriving DecidableEq, Repr

def buildPRConditionalRequest (token : Option String) (lastFetched : Int) :
    PRConditionalRequest :=
  { accept := "application/vnd.github+json"
    authorization := token.map (fun t => "token " ++ t)
    ifModifiedSince := if goDateTimeIsZero lastFetched then none else some lastFetched }

/-- Embedding of pullRequestHasBeenModified (backend/external): when the
cached pull request cannot be fetched the answer is modified with no cached
document; otherwise the conditional request is issued (its outcome is the
httpResult parameter: an error or a status code) and the answer is whether
the status differs from 304 Not Modified, together with the cached record. -/
def pullRequestHasBeenModified (db : List PullRequest) (userID : Nat)
    (externalID : String) (httpResult : Except Unit Nat) :
    Bool × Option PullRequest :=
  match GetPullRequestByExternalID db externalID userID with
  | none => (true, none)
  | some dbPR =>
    match httpResult with
    | .error _ => (true, some dbPR)
    | .ok status => (!(status == 304), some dbPR)

/-- Embedding of getPullRequestInfo (backend/external): the conditional
check runs first; when the pull request has not been modified the cached
record is sent with no detailed fetch, and otherwise the detailed pipeline
runs (its many Github calls are summarised by the fetchDetails parameter,
none standing for the error paths that send nil).  The boolean records
whether the detailed re-fetch was performed. -/
def getPullRequestInfo (db : List PullRequest) (userID : Nat)
    (externalID : String) (httpResult : Except Unit Nat)
    (fetchDetails : Option PullRequest) : Option PullRequest × Bool :=
  match pullRequestHasBeenModified db userID externalID httpResult with
  | (false, cachedPR) => (cachedPR, false)
  | (true, _) => (fetchDetails, true)

/-- Embedding of the per-result reconciliation step of
GithubPRSource.GetPullRequests (backend/external): a pull request that
carries a database id and is not completed is kept as is with no upsert;
every other result is marked not completed, stamped with the request time
and written through UpdateOrCreatePullRequest.  The boolean records whether
the upsert happened. -/
def handleFetchedPullRequest (requestTime : Int) (pr : PullRequest) :
    Bool × PullRequest :=
  if pr.id ≠ none ∧ pr.isCompleted ≠ some true then (false, pr)
  else (true, { pr with isCompleted := some false, lastFetched := requestTime })

/-! ## Sharing checks and shared-item fetchers (backend/database) -/
/-- Embedding of database.CheckNoteSharingAccessValid: nil is accepted for
backwards compatibility, and otherwise the value must be one of the three
shared-access constants. -/
def CheckNoteSharingAccessValid (sharedAccess : Option SharedAccess) : Bool :=
  match sharedAccess with
  | none => true
  | some sa =>
    if sa ≠ SharedAccessMeetingAttendees ∧ sa ≠ SharedAccessDomain ∧
        sa ≠ SharedAccessPublic then false
    else true

/-- Embedding of database.CheckTaskSharingAccessValid: only the domain and
public values are accepted. -/
def CheckTaskSharingAccessValid (sharedAccess : SharedAccess) : Bool :=
  sharedAccess == SharedAccessDomain || sharedAccess == SharedAccessPublic

/-- Embedding of database.GetUser: first user document with the given id. -/
def GetUser (users : List User) (userID : Nat) : Except String User :=
  match users.find? (fun u => u.id == userID) with
  | some u => .ok u
  | none => .error "failed to load user"

/-- The window filter common to the shared-item FindOne queries: matching
id, shared_until at least the current time, and not deleted. -/
def sharedWindowTask (taskID : Nat) (now : Int) (t : Task) : Bool :=
  t.id == taskID && now ≤ t.sharedUntil && !(t.isDeleted == some true)

def sharedWindowNote (noteID : Nat) (now : Int) (n : Note) : Bool :=
  n.id == noteID && now ≤ n.sharedUntil && !(n.isDeleted == some true)

/-- Embedding of database.GetSharedTask (backend/database): fetches the task
inside its sharing window, requires a shared-access value that is domain or
public, and for domain sharing requires an authenticated user whose email
domain (via GetEmailDomain) equals the task owner's email domain. -/
def GetSharedTask (tasks : List Task) (users : List User) (taskID : Nat)
    (userID : Option Nat) (now : Int) : Except String Task :=
  match tasks.find? (sharedWindowTask taskID now) with
  | none => .error "failed to get task"
  | some task =>
    match task.sharedAccess with
    | none => .error "task is not shared"
    | some sa =>
      if sa ≠ SharedAccessDomain ∧ sa ≠ SharedAccessPublic then
        .error "invalid shared access value"
      else if sa = SharedAccessDomain then
        match userID with
        | none => .error "user is not allowed to access this task"
        | some uid =>
          match GetUser users uid with
          | .error e => .error e
          | .ok user =>
            match GetUser users task.userId with
            | .error e => .error e
            | .ok taskOwner =>
              match GetEmailDomain user.email with
              | .error e => .error e
              | .ok userDomain =>
                match GetEmailDomain taskOwner.email with
                | .error e => .error e
                | .ok taskOwnerDomain =>
                  if userDomain ≠ taskOwnerDomain then
                    .error "user domain does not match task owner domain"
                  else .ok task
      else .ok task

/-- Embedding of database.GetSharedNote (backend/database): fetches the note
inside its sharing window and rejects it when a shared-access value is set
that is not public. -/
def GetSharedNote (notes : List Note) (noteID : Nat) (now : Int) :
    Except String Note :=
  match notes.find? (sharedWindowNote noteID now) with
  | none => .error "failed to get note"
  | some note =>
    if note.sharedAccess ≠ none ∧ note.sharedAccess ≠ some SharedAccessPublic then
      .error "unable to fetch note without auth"
    else .ok note

/-- Embedding of database.GetSharedNoteWithAuth (backend/database): fetches
the note inside its sharing window; a note that is public, or owned by the
requesting user, is returned directly; otherwise domain sharing compares
email domains and meeting-attendees sharing requires the requester's email
among the linked event's attendees. -/
def GetSharedNoteWithAuth (notes : List Note) (users : List User)
    (events : List CalendarEvent) (noteID : Nat) (userID : Nat) (now : Int) :
    Except String Note :=
  match notes.find? (sharedWindowNote noteID now) with
  | none => .error "failed to get note"
  | some note =>
    if note.sharedAccess ≠ none ∧ note.sharedAccess ≠ some SharedAccessPublic ∧
        note.userId ≠ userID then
      if !CheckNoteSharingAccessValid note.sharedAccess then
        .error "invalid shared access value"
      else
        match GetUser users userID with
        | .error e => .error e
        | .ok user =>
          if note.sharedAccess = some SharedAccessDomain then
            match GetUser users note.userId with
            | .error e => .error e
            | .ok noteOwner =>
              match GetEmailDomain user.email with
              | .error e => .error e
              | .ok userDomain =>
                match GetEmailDomain noteOwner.email with
                | .error e => .error e
                | .ok noteOwnerDomain =>
                  if userDomain ≠ noteOwnerDomain then
                    .error "user domain does not match note owner domain"
                  else .ok note
          else if note.sharedAccess = some SharedAccessMeetingAttendees then
            match note.linkedEventId with
            | none => .error "linked event required for shared access type of the note"
            | some eventID =>
              match events.find? (fun e => e.id == eventID) with
              | none => .error "failed to get linked event"
              | some event =>
                if event.attendeeEmails.any (fun e => e == user.email) then .ok note
                else .error "user not found in list of attendees"
          else .ok note
    else .ok note

/-! ## The task-modify endpoint (backend/api/task_modify.go)

The request payload structures mirror TaskChangeable,
TaskItemChangeableFields and TaskModifyParams; Go zero values become the
field defaults, so the all-fields-empty comparison with TaskModifyParams{}
is equality with the default value.  Handler responses are embedded as a
status code and detail string, and the side effects of the handler (the
external ModifyTask call, the database update, the reorder) as an effect
list, so that a rejection path provably performs no update. -/
structure TaskChangeable where
  externalPriority : Option ExternalTaskPriority := none
  priorityNormalized : Option Int := none
  taskNumber : Option Int := none
  comments : Option (List String) := none
  status : Option ExternalTaskStatus := none
  previousStatus : Option ExternalTaskStatus := none
  completedStatus : Option ExternalTaskStatus := none
  recurringTaskTemplateID : Option String := none
deriving DecidableEq, Repr

structure TaskItemChangeableFields where
  task : TaskChangeable := {}
  title : Option String := none
  body : Option String := none
  dueDate : Option String := none
  timeAllocation : Option Int := none
  isCompleted : Option Bool := none
  completedAt : Int := 0
  isDeleted : Option Bool := none
  deletedAt : Int := 0
  sharedAccess : Option String := none
  sharedUntil : Int := 0
deriving DecidableEq, Repr

structure TaskModifyParams where
  idOrdering : Option Int := none
  idTaskSection : Option String := none
  fields : TaskItemChangeableFields := {}
deriving DecidableEq, Repr

/-- Embedding of api.ValidateFields (backend/api/task_modify.go): checks the
completion, status, title, time-allocation and priority fields in the order
of the Go code, returning either the 400 response written by the Go code or
the mutated update fields (completion timestamps stamped with the current
time, time allocation scaled to nanoseconds, status and priority resolved
against the task's known values, where the Go loops keep the last match). -/
def ValidateFields (updateFields : TaskItemChangeableFields)
    (isCompletable : Bool) (task : Task) (now : Int) :
    Except (Nat × String) TaskItemChangeableFields := do
  let isTaskDeletedInRequest :=
    updateFields.isDeleted == none || updateFields.isDeleted == some true
  let isTaskDeletedInDb := task.isDeleted == some true
  let isTaskDeleted := isTaskDeletedInRequest && isTaskDeletedInDb
  if updateFields.isCompleted == some true && (!isCompletable || isTaskDeleted) then
    throw (400, "cannot be marked done")
  let f ←
    match updateFields.task.status with
    | none => pure updateFields
    | some s =>
      let statusToUpdateTo := task.allStatuses.foldl
        (fun acc st => if st.externalID == s.externalID then some st else acc) none
      match statusToUpdateTo with
      | none => throw (400, "status value not in all status field for task")
      | some st =>
        let f1 :=
          if st.isCompletedStatus then
            { updateFields with task := { updateFields.task with completedStatus := some st } }
          else updateFields
        match task.isCompleted with
        | some b =>
          if (b && !st.isCompletedStatus) || (!b && st.isCompletedStatus) then
            pure { f1 with isCompleted := some st.isCompletedStatus }
          else pure f1
        | none => pure f1
  let f := if f.isCompleted == some true then { f with completedAt := now } else f
  let f := if f.isDeleted == some true then { f with deletedAt := now } else f
  if f.title == some "" then throw (400, "title cannot be empty")
  let f ←
    match f.timeAllocation with
    | none => pure f
    | some t =>
      if t < 0 then throw (400, "time duration cannot be negative")
      else pure { f with timeAllocation := some (t * 1000000000) }
  let f ←
    match f.task.externalPriority with
    | none => pure f
    | some p =>
      let matchedPriority := task.allExternalPriorities.foldl
        (fun acc pr => if p.externalID == pr.externalID then some pr else acc) none
      match matchedPriority with
      | none => throw (400, "priority value not valid for task")
      | some pr =>
        pure { f with task := { f.task with
          externalPriority := some pr
          priorityNormalized := some pr.priorityNormalized } }
  pure f

/-- Side effects performed by the task-modify handler after validation. -/
inductive ModifyEffect where
  | externalModifyTask (sourceId : String)
  | updateTaskInDB (taskId : Nat)
  | reorder (taskId : Nat) (ordering : Option Int) (sectionHex : Option String)
deriving DecidableEq, Repr

/-- Embedding of api.TaskModify (backend/api/task_modify.go) after the task
id was parsed and the JSON payload bound.  Inputs that the Go handler reads
from collaborators are parameters: parseObjectIDHex embeds
primitive.ObjectIDFromHex, parseYMD and parseRFC the two date formats tried
on due_date, sources the external source registry with the IsCompletable
detail, and externalModifyOk the outcome of the external ModifyTask call.
The title-reassignment lookup getValidExternalOwnerAssignedTask only adjusts
the update payload and performs no write, so it is not tracked.  The result
is the response written by the handler and the effect trace. -/
def TaskModify (tasks : List Task) (sources : List (String × Bool))
    (parseObjectIDHex : String → Option Nat)
    (parseYMD parseRFC : String → Option Int)
    (now : Int) (externalModifyOk : Bool) (taskID userID : Nat)
    (modifyParams : TaskModifyParams) : (Nat × String) × List ModifyEffect :=
  if modifyParams.idTaskSection.isSome &&
      (modifyParams.idTaskSection.bind parseObjectIDHex).isNone then
    ((400, "id_task_section is not a valid ID"), [])
  else
    match tasks.find? (matchesTaskAndUser taskID userID) with
    | none => ((404, "task not found."), [])
    | some task =>
      if modifyParams = {} then ((400, "task changes missing"), [])
      else
        match sources.lookup task.sourceId with
        | none => ((500, "internal server error"), [])
        | some isCompletable =>
          match ValidateFields modifyParams.fields isCompletable task now with
          | .error resp => (resp, [])
          | .ok fields =>
            -- due date parsing
            let dueDateCheckFailed :=
              match fields.dueDate with
              | none => false
              | some d => (parseYMD d).isNone && (parseRFC d).isNone
            if dueDateCheckFailed then ((400, "due_date is not a valid date"), [])
            else
              if fields = ({} : TaskItemChangeableFields) then
                -- no changeable fields: only the reorder step can run
                taskModifyReorder tasks parseObjectIDHex taskID userID
                  modifyParams task []
              else
                if fields.task.recurringTaskTemplateID.isSome &&
                    (fields.task.recurringTaskTemplateID.bind parseObjectIDHex).isNone then
                  ((500, "internal server error"), [])
                else
                  if task.sourceId ≠ TASK_SOURCE_ID_GT_TASK ∧
                      (fields.sharedUntil ≠ 0 ∨ fields.sharedAccess ≠ none) then
                    ((400, "only General Task tasks can be shared"), [])
                  else
                    let sharedAccessInvalid :=
                      match fields.sharedAccess with
                      | none => false
                      | some sa => !(sa == StringSharedAccessPublic) &&
                          !(sa == StringSharedAccessDomain)
                    if sharedAccessInvalid then ((400, "invalid shared access token"), [])
                    else
                      if !externalModifyOk then
                        ((500, "internal server error"),
                          [ModifyEffect.externalModifyTask task.sourceId])
                      else
                        taskModifyReorder tasks parseObjectIDHex taskID userID
                          modifyParams task
                          [ModifyEffect.externalModifyTask task.sourceId,
                            ModifyEffect.updateTaskInDB taskID]
where
  /-- The trailing reorder step of the handler: runs when an ordering or a
  section was supplied or the task is a subtask; its response comes from
  ReOrderTask and otherwise the handler answers 200.  The section hex was
  already validated by the handler, so the lossy parse inside the Go
  ReOrderTask coincides with parseObjectIDHex here. -/
  taskModifyReorder (tasks : List Task) (parseObjectIDHex : String → Option Nat)
      (taskID userID : Nat) (modifyParams : TaskModifyParams) (task : Task)
      (effects : List ModifyEffect) : (Nat × String) × List ModifyEffect :=
    if modifyParams.idOrdering.isSome || modifyParams.idTaskSection.isSome ||
        task.parentTaskId.isSome then
      match ReOrderTask tasks taskID userID modifyParams.idOrdering
          (modifyParams.idTaskSection.bind parseObjectIDHex) with
      | .error _ => ((404, "not found"),
          effects ++ [ModifyEffect.reorder taskID modifyParams.idOrdering
            modifyParams.idTaskSection])
      | .ok _ => ((200, ""),
          effects ++ [ModifyEffect.reorder taskID modifyParams.idOrdering
            modifyParams.idTaskSection])
    else ((200, ""), effects)

/-! ## Concrete instances used by witnesses and counterexamples -/
def c7users : List User :=
  [⟨1, "o@dom.io".toList⟩, ⟨2, "u@dom.io".toList⟩, ⟨3, "w@other.io".toList⟩]

def c7taskPublic : Task :=
  { id := 21, userId := 1, sharedUntil := 100,
    sharedAccess := some SharedAccessPublic }

def c7taskDomain : Task :=
  { id := 22, userId := 1, sharedUntil := 100,
    sharedAccess := some SharedAccessDomain }

def c9task : Task :=
  { id := 4, userId := 9, sharedUntil := 5,
    sharedAccess := some SharedAccessPublic }

def c1t1 : Task := { id := 1, userId := 1, idOrdering := 1, idTaskSection := 5 }

def c1t2 : Task := { id := 2, userId := 1, idOrdering := 2, idTaskSection := 5 }

def c1t3 : Task := { id := 3, userId := 1, idOrdering := 3, idTaskSection := 5 }

def c4pr : PullRequest :=
  { id := some 7, userId := 1, idExternal := "42", sourceId := "github_pr",
    lastFetched := 1000, isCompleted := some true, title := "t" }

def c4cached : PullRequest :=
  { id := some 8, userId := 2, idExternal := "77", sourceId := "github_pr",
    lastFetched := 500 }

def c8task : Task := { id := 1, userId := 1, sourceId := "github" }

def c8params : TaskModifyParams :=
  { fields := { title := some "", sharedAccess := some "public" } }

def c8paramsValid : TaskModifyParams :=
  { fields := { sharedAccess := some "public" } }

def c8sources : List (String × Bool) := [("github", false)]

def c9note : Note :=
  { id := 4, userId := 9, sharedUntil := 50, isDeleted := some true,
    sharedAccess := some SharedAccessPublic }

theorem goSplit_ne_nil (sep : Char) (l : List Char) : goSplit sep l ≠ [] := by
  cases l with
  | nil => simp [goSplit]
  | cons c rest =>
    simp only [goSplit]
    split
    · simp
    · cases h : goSplit sep rest <;> simp

theorem goSplit_length_two (sep : Char) (l : List Char) (h : l.contains sep) :
    2 ≤ (goSplit sep l).length := by
  induction l with
  | nil => simp [List.contains] at h
  | cons c rest ih =>
    simp only [goSplit]
    by_cases hc : c = sep
    · simp only [if_pos hc, List.length_cons]
      have := List.length_pos.mpr (goSplit_ne_nil sep rest)
      omega
    · simp only [if_neg hc]
      have hrest : rest.contains sep := by
        simp only [List.contains, List.elem_cons] at h ⊢
        cases hbe : sep == c
        · rw [hbe] at h; exact h
        · exact absurd (Eq.symm (eq_of_beq hbe)) hc
      have h2 := ih hrest
      cases hg : goSplit sep rest with
      | nil => exact absurd hg (goSplit_ne_nil sep rest)
      | cons seg segs =>
        simp only [List.length_cons]
        rw [hg] at h2
        simpa using h2

theorem goSplit_head_takeWhile (sep : Char) (l : List Char) :
    (goSplit sep l).headI = l.takeWhile (fun c => c ≠ sep) := by
  induction l with
  | nil => simp [goSplit]
  | cons c rest ih =>
    simp only [goSplit]
    by_cases hc : c = sep
    · simp [hc, List.takeWhile]
    · simp only [if_neg hc]
      cases hg : goSplit sep rest with
      | nil => exact absurd hg (goSplit_ne_nil sep rest)
      | cons seg segs =>
        rw [hg] at ih
        simp only [List.headI] at ih
        simp [List.takeWhile, hc, ih]

theorem goSplit_getD_one (sep : Char) (l : List Char) (h : l.contains sep) :
    (goSplit sep l).getD 1 [] = segmentAfterFirst sep l := by
  induction l with
  | nil => simp [List.contains] at h
  | cons c rest ih =>
    simp only [goSplit, segmentAfterFirst]
    by_cases hc : c = sep
    · simp only [if_pos hc]
      have hhead := goSplit_head_takeWhile sep rest
      cases hg : goSplit sep rest with
      | nil => exact absurd hg (goSplit_ne_nil sep rest)
      | cons seg segs =>
        rw [hg] at hhead
        simp only [List.headI] at hhead
        simp [List.dropWhile, hc, hhead]
    · simp only [if_neg hc]
      have hrest : rest.contains sep := by
        simp only [List.contains, List.elem_cons] at h ⊢
        cases hbe : sep == c
        · rw [hbe] at h; exact h
        · exact absurd (Eq.symm (eq_of_beq hbe)) hc
      have := ih hrest
      simp only [segmentAfterFirst] at this
      cases hg : goSplit sep rest with
      | nil => exact absurd hg (goSplit_ne_nil sep rest)
      | cons seg segs =>
        rw [hg] at this
        simp only [List.getD, List.get?] at this ⊢
        simpa [List.dropWhile, hc] using this

theorem insertByKey_perm (key : α → Int) (t : α) (l : List α) :
    List.Perm (insertByKey key t l) (t :: l) := by
  induction l with
  | nil => simp [insertByKey]
  | cons u us ih =>
    simp only [insertByKey]
    split
    · exact ((ih.cons u).trans (List.Perm.swap t u us)).symm.symm
    · exact List.Perm.refl _

theorem sortByKey_perm (key : α → Int) (l : List α) : List.Perm (sortByKey key l) l := by
  induction l with
  | nil => simp [sortByKey]
  | cons t ts ih =>
    exact (insertByKey_perm key t (sortByKey key ts)).trans (ih.cons t)

theorem sortByKey_length (key : α → Int) (l : List α) :
    (sortByKey key l).length = l.length :=
  (sortByKey_perm key l).length_eq

theorem insertByKey_sorted (key : α → Int) (t : α) (l : List α)
    (h : l.Pairwise (fun a b => key a ≤ key b)) :
    (insertByKey key t l).Pairwise (fun a b => key a ≤ key b) := by
  induction l with
  | nil => simp [insertByKey]
  | cons u us ih =>
    simp only [insertByKey]
    rw [List.pairwise_cons] at h
    split
    · rename_i hlt
      have hall : ∀ b ∈ insertByKey key t us, key u ≤ key b := by
        intro b hb
        have hmem : b ∈ t :: us := (insertByKey_perm key t us).mem_iff.mp hb
        rw [List.mem_cons] at hmem
        rcases hmem with hmem | hmem
        · subst hmem; omega
        · exact h.1 b hmem
      exact List.pairwise_cons.mpr ⟨hall, ih h.2⟩
    · rename_i hge
      refine List.pairwise_cons.mpr ⟨?_, List.pairwise_cons.mpr h⟩
      intro b hb
      rw [List.mem_cons] at hb
      rcases hb with hb | hb
      · subst hb; omega
      · have := h.1 b hb; omega

theorem sortByKey_sorted (key : α → Int) (l : List α) :
    (sortByKey key l).Pairwise (fun a b => key a ≤ key b) := by
  induction l with
  | nil => simp [sortByKey]
  | cons t ts ih => exact insertByKey_sorted key t _ ih

theorem insertByKey_eq_cons (key : α → Int) (t : α) (l : List α)
    (h : ∀ b ∈ l.head?, ¬ key b < key t) : insertByKey key t l = t :: l := by
  cases l with
  | nil => simp [insertByKey]
  | cons u us =>
    simp only [insertByKey]
    rw [if_neg (h u (by simp))]

/-- Sorting an already ascending list leaves it unchanged. -/
theorem sortByKey_eq_self_of_sorted (key : α → Int) (l : List α)
    (h : l.Pairwise (fun a b => key a ≤ key b)) : sortByKey key l = l := by
  induction l with
  | nil => simp [sortByKey]
  | cons t ts ih =>
    rw [List.pairwise_cons] at h
    simp only [sortByKey]
    rw [ih h.2]
    refine insertByKey_eq_cons key t ts ?_
    intro b hb
    cases ts with
    | nil => simp at hb
    | cons u us =>
      simp only [List.head?_cons, Option.mem_def, Option.some.injEq] at hb
      subst hb
      have := h.1 u (by simp)
      omega

theorem getDBQuery_iff_keyOf (userID : Nat) (IDExternal sourceID : String)
    (r : DbRec α) :
    getDBQuery userID IDExternal sourceID r = true ↔
      keyOf r = (userID, IDExternal, sourceID) := by
  simp [getDBQuery, keyOf, and_comm, and_assoc, and_left_comm]

/-! ## Lemmas about first-match updates and upserts -/
theorem find?_append_singleton {β : Type} (l : List β) (p : β → Bool) (x : β)
    (h : l.find? p = none) (hx : p x = true) : (l ++ [x]).find? p = some x := by
  induction l with
  | nil => simp [List.find?, hx]
  | cons a as ih =>
    rw [List.find?_eq_none] at h
    have ha : p a = false := by
      cases hpa : p a
      · rfl
      · exact absurd hpa (h a (by simp))
    simp only [List.cons_append, List.find?, ha]
    exact ih (List.find?_eq_none.mpr fun b hb => h b (by simp [hb]))

theorem updateFirst_of_find?_none (p : DbRec α → Bool) (f : DbRec α → DbRec α)
    (l : List (DbRec α)) (h : l.find? p = none) : updateFirst p f l = l := by
  induction l with
  | nil => rfl
  | cons a as ih =>
    rw [List.find?_eq_none] at h
    have ha : p a = false := by
      cases hpa : p a
      · rfl
      · exact absurd hpa (h a (by simp))
    simp only [updateFirst, ha, Bool.false_eq_true, if_false, List.cons.injEq, true_and]
    exact ih (List.find?_eq_none.mpr fun b hb => h b (by simp [hb]))

theorem updateFirst_append_singleton (p : DbRec α → Bool) (f : DbRec α → DbRec α)
    (l : List (DbRec α)) (x : DbRec α) (h : l.find? p = none) (hx : p x = true) :
    updateFirst p f (l ++ [x]) = l ++ [f x] := by
  induction l with
  | nil => simp [updateFirst, hx]
  | cons a as ih =>
    rw [List.find?_eq_none] at h
    have ha : p a = false := by
      cases hpa : p a
      · rfl
      · exact absurd hpa (h a (by simp))
    simp only [List.cons_append, updateFirst, ha, Bool.false_eq_true, if_false,
      List.cons.injEq, true_and]
    exact ih (List.find?_eq_none.mpr fun b hb => h b (by simp [hb]))

theorem updateFirst_map_keyOf (p : DbRec α → Bool) (f : DbRec α → DbRec α)
    (hf : ∀ x, keyOf (f x) = keyOf x) (l : List (DbRec α)) :
    (updateFirst p f l).map keyOf = l.map keyOf := by
  induction l with
  | nil => rfl
  | cons a as ih =>
    simp only [updateFirst]
    split
    · simp [hf a]
    · simp [ih]

theorem mem_updateFirst_of_find? (p : DbRec α → Bool) (f : DbRec α → DbRec α)
    (l : List (DbRec α)) (r : DbRec α) (h : l.find? p = some r) :
    f r ∈ updateFirst p f l := by
  induction l with
  | nil => simp [List.find?] at h
  | cons a as ih =>
    by_cases hpa : p a = true
    · rw [List.find?_cons_of_pos _ hpa] at h
      cases h
      simp [updateFirst, hpa]
    · have hpa' : p a = false := by
        cases hp : p a
        · rfl
        · exact absurd hp hpa
      rw [List.find?_cons_of_neg _ (by simp [hpa'])] at h
      simp only [updateFirst, hpa', Bool.false_eq_true, if_false]
      exact List.mem_cons_of_mem a (ih h)

theorem keyOf_self (userID : Nat) (IDExternal sourceID : String) (fields : α) :
    keyOf (⟨userID, sourceID, IDExternal, fields⟩ : DbRec α) =
      (userID, IDExternal, sourceID) := rfl

theorem getDBQuery_self (userID : Nat) (IDExternal sourceID : String) (fields : α) :
    getDBQuery userID IDExternal sourceID
      (⟨userID, sourceID, IDExternal, fields⟩ : DbRec α) = true := by
  simp [getDBQuery]

/-! ## Claim theorems -/
theorem GetEmailDomain_contains_eq (email : List Char)
    (hc : email.contains '@' = true) :
    GetEmailDomain email =
      if segmentAfterFirst '@' email = [] then .error "invalid email address"
      else .ok (segmentAfterFirst '@' email) := by
  unfold GetEmailDomain
  rw [hc, goSplit_getD_one '@' email hc]
  simp

theorem GetEmailDomain_not_contains (email : List Char)
    (hc : email.contains '@' = false) :
    GetEmailDomain email = .error "invalid email address" := by
  unfold GetEmailDomain
  rw [hc]
  simp

/-- C10: for every input string, GetEmailDomain returns an error exactly when
the string contains no at-sign or the segment between the first at-sign and
the following at-sign (or the end of the string) is empty; otherwise it
returns that segment. -/
theorem claim_C10_get_email_domain (email : List Char) :
    ((∃ e, GetEmailDomain email = .error e) ↔
      (email.contains '@' = false ∨ segmentAfterFirst '@' email = [])) ∧
    (email.contains '@' = true → segmentAfterFirst '@' email ≠ [] →
      GetEmailDomain email = .ok (segmentAfterFirst '@' email)) := by
  by_cases hc : email.contains '@' = true
  · rw [GetEmailDomain_contains_eq email hc]
    constructor
    · constructor
      · intro ⟨e, he⟩
        by_cases hseg : segmentAfterFirst '@' email = []
        · exact Or.inr hseg
        · rw [if_neg hseg] at he; exact absurd he (by simp)
      · intro h
        rcases h with h | h
        · rw [hc] at h; exact absurd h (by simp)
        · exact ⟨"invalid email address", by rw [if_pos h]⟩
    · intro _ hseg
      rw [if_neg hseg]
  · have hcf : email.contains '@' = false := by
      cases h : email.contains '@'
      · rfl
      · exact absurd h hc
    constructor
    · constructor
      · intro _; exact Or.inl hcf
      · intro _; exact ⟨"invalid email address", GetEmailDomain_not_contains email hcf⟩
    · intro h; exact absurd h hc

/-- Witness for C10 at the concrete inputs named by the claim: an empty
local part succeeds with the domain, while a trailing at-sign and a doubled
at-sign fail. -/
theorem claim_C10_witness :
    GetEmailDomain ('@' :: 'x' :: '.' :: 'c' :: 'o' :: 'm' :: []) =
      .ok ('x' :: '.' :: 'c' :: 'o' :: 'm' :: []) ∧
    (∃ e, GetEmailDomain ('a' :: '@' :: []) = .error e) ∧
    (∃ e, GetEmailDomain ('a' :: '@' :: '@' :: 'b' :: []) = .error e) := by
  refine ⟨?_, ?_, ?_⟩
  · have h := (claim_C10_get_email_domain ('@' :: 'x' :: '.' :: 'c' :: 'o' :: 'm' :: [])).2
      (by decide) (by decide)
    rw [h]
    have hseg : segmentAfterFirst '@' ('@' :: 'x' :: '.' :: 'c' :: 'o' :: 'm' :: []) =
        ('x' :: '.' :: 'c' :: 'o' :: 'm' :: []) := by decide
    rw [hseg]
  · exact (claim_C10_get_email_domain ('a' :: '@' :: [])).1.mpr (by decide)
  · exact (claim_C10_get_email_domain ('a' :: '@' :: '@' :: 'b' :: [])).1.mpr (by decide)

/-- C6 counterexample: the task sharing-access check rejects the
meeting_attendees value, so not every one of the three modes is a valid
shared-access value for tasks. -/
theorem claim_C6_counterexample :
    CheckTaskSharingAccessValid SharedAccessMeetingAttendees = false := by decide

/-- C6 amended: for notes every one of the three modes (and nil, for
backwards compatibility) is accepted and any other value rejected, but for
tasks only domain and public are accepted and every other value, the
meeting_attendees mode included, is rejected. -/
theorem claim_C6_amended :
    (CheckNoteSharingAccessValid none = true ∧
      CheckNoteSharingAccessValid (some SharedAccessDomain) = true ∧
      CheckNoteSharingAccessValid (some SharedAccessPublic) = true ∧
      CheckNoteSharingAccessValid (some SharedAccessMeetingAttendees) = true) ∧
    (∀ sa : SharedAccess, sa ≠ SharedAccessDomain → sa ≠ SharedAccessPublic →
      sa ≠ SharedAccessMeetingAttendees →
      CheckNoteSharingAccessValid (some sa) = false) ∧
    (CheckTaskSharingAccessValid SharedAccessDomain = true ∧
      CheckTaskSharingAccessValid SharedAccessPublic = true ∧
      CheckTaskSharingAccessValid SharedAccessMeetingAttendees = false) ∧
    (∀ sa : SharedAccess, sa ≠ SharedAccessDomain → sa ≠ SharedAccessPublic →
      CheckTaskSharingAccessValid sa = false) := by
  refine ⟨by decide, ?_, by decide, ?_⟩
  · intro sa h1 h2 h3
    simp [CheckNoteSharingAccessValid, h1, h2, h3]
  · intro sa h1 h2
    simp [CheckTaskSharingAccessValid, h1, h2]

/-- Witness for the amended C6 at a concrete invalid value. -/
theorem claim_C6_amended_witness :
    CheckNoteSharingAccessValid (some "everyone") = false ∧
    CheckTaskSharingAccessValid "everyone" = false := by
  constructor
  · exact (claim_C6_amended.2.1) "everyone" (by decide) (by decide) (by decide)
  · exact (claim_C6_amended.2.2.2) "everyone" (by decide) (by decide)

/-- C9: a shared task or note whose shared_until time is earlier than the
current time, or which is marked deleted, is never returned by GetSharedTask,
GetSharedNote or GetSharedNoteWithAuth: every such fetch yields an error,
for every requester, the owner included. -/
theorem claim_C9_expired_or_deleted_never_returned
    (tasks : List Task) (users : List User) (notes : List Note)
    (events : List CalendarEvent) (itemID : Nat) (now : Int)
    (htask : ∀ t ∈ tasks, t.id = itemID →
      t.sharedUntil < now ∨ t.isDeleted = some true)
    (hnote : ∀ n ∈ notes, n.id = itemID →
      n.sharedUntil < now ∨ n.isDeleted = some true) :
    (∀ userID : Option Nat,
      ∃ e, GetSharedTask tasks users itemID userID now = .error e) ∧
    (∃ e, GetSharedNote notes itemID now = .error e) ∧
    (∀ userID : Nat,
      ∃ e, GetSharedNoteWithAuth notes users events itemID userID now = .error e) := by
  have hfT : tasks.find? (sharedWindowTask itemID now) = none := by
    rw [List.find?_eq_none]
    intro t ht hp
    simp only [sharedWindowTask, Bool.and_eq_true, beq_iff_eq, decide_eq_true_eq,
      Bool.not_eq_true', beq_eq_false_iff_ne, ne_eq] at hp
    rcases htask t ht hp.1.1 with h | h
    · omega
    · exact hp.2 h
  have hfN : notes.find? (sharedWindowNote itemID now) = none := by
    rw [List.find?_eq_none]
    intro n hn hp
    simp only [sharedWindowNote, Bool.and_eq_true, beq_iff_eq, decide_eq_true_eq,
      Bool.not_eq_true', beq_eq_false_iff_ne, ne_eq] at hp
    rcases hnote n hn hp.1.1 with h | h
    · omega
    · exact hp.2 h
  refine ⟨?_, ?_, ?_⟩
  · intro userID
    exact ⟨"failed to get task", by unfold GetSharedTask; rw [hfT]⟩
  · exact ⟨"failed to get note", by unfold GetSharedNote; rw [hfN]⟩
  · intro userID
    exact ⟨"failed to get note", by unfold GetSharedNoteWithAuth; rw [hfN]⟩

/-- Witness for C9: a concrete expired task and a concrete deleted note are
rejected by the fetchers, also for their owner. -/
theorem claim_C9_witness :
    (∃ e, GetSharedTask [c9task] [] 4 (some 9) 10 = .error e) ∧
    (∃ e, GetSharedNote [c9note] 4 10 = .error e) := by
  have h := claim_C9_expired_or_deleted_never_returned
    [c9task] [] [c9note] [] 4 10 (by decide) (by decide)
  exact ⟨h.1 (some 9), h.2.1⟩

/-- C7: for every shared task within its sharing window, public sharing
succeeds for every requester, the unauthenticated one included, and domain
sharing succeeds exactly for authenticated requesters whose email domain
(when the involved users and domains resolve) equals the owner's email
domain, an unauthenticated requester or one with a different domain
receiving an error. -/
theorem claim_C7_shared_link_access
    (tasks : List Task) (users : List User) (taskID : Nat) (now : Int)
    (task : Task)
    (hfind : tasks.find? (sharedWindowTask taskID now) = some task) :
    (task.sharedAccess = some SharedAccessPublic →
      ∀ userID : Option Nat,
        GetSharedTask tasks users taskID userID now = .ok task) ∧
    (task.sharedAccess = some SharedAccessDomain →
      (∃ e, GetSharedTask tasks users taskID none now = .error e) ∧
      (∀ (uid : Nat) (user taskOwner : User) (userDomain taskOwnerDomain : List Char),
        GetUser users uid = .ok user →
        GetUser users task.userId = .ok taskOwner →
        GetEmailDomain user.email = .ok userDomain →
        GetEmailDomain taskOwner.email = .ok taskOwnerDomain →
        (GetSharedTask tasks users taskID (some uid) now = .ok task ↔
          userDomain = taskOwnerDomain))) := by
  constructor
  · intro hsa userID
    unfold GetSharedTask
    rw [hfind]
    simp only []
    rw [hsa]
    rfl
  · intro hsa
    constructor
    · refine ⟨"user is not allowed to access this task", ?_⟩
      unfold GetSharedTask
      rw [hfind]
      simp only []
      rw [hsa]
      rfl
    · intro uid user taskOwner userDomain taskOwnerDomain hu ho hd1 hd2
      unfold GetSharedTask
      rw [hfind]
      simp only []
      rw [hsa]
      simp only [hu, ho, hd1, hd2]
      by_cases hdom : userDomain = taskOwnerDomain
      · simp [hdom]
      · simp [hdom]

/-- Witness for C7: a concrete public task is readable by an unauthenticated
requester, and a concrete domain task is readable exactly by the same-domain
user. -/
theorem claim_C7_witness :
    (GetSharedTask [c7taskPublic] c7users 21 none 10 = .ok c7taskPublic) ∧
    (∃ e, GetSharedTask [c7taskDomain] c7users 22 none 10 = .error e) ∧
    (GetSharedTask [c7taskDomain] c7users 22 (some 2) 10 = .ok c7taskDomain) ∧
    ¬(GetSharedTask [c7taskDomain] c7users 22 (some 3) 10 = .ok c7taskDomain) := by
  have hpub := (claim_C7_shared_link_access [c7taskPublic] c7users 21 10 c7taskPublic
    (by decide)).1 (by decide)
  have hdom := (claim_C7_shared_link_access [c7taskDomain] c7users 22 10 c7taskDomain
    (by decide)).2 (by decide)
  refine ⟨hpub none, hdom.1, ?_, ?_⟩
  · exact (hdom.2 2 ⟨2, "u@dom.io".toList⟩ ⟨1, "o@dom.io".toList⟩
      "dom.io".toList "dom.io".toList (by rfl) (by rfl) (by rfl)
      (by rfl)).mpr rfl
  · intro hcontra
    have := (hdom.2 3 ⟨3, "w@other.io".toList⟩ ⟨1, "o@dom.io".toList⟩
      "other.io".toList "dom.io".toList (by rfl) (by rfl) (by rfl)
      (by rfl)).mp hcontra
    exact absurd this (by decide)

theorem upsertOnInsert_of_match {α : Type} (collection : List (DbRec α))
    (userID : Nat) (IDExternal sourceID : String) (ins : α)
    (h : ∃ r ∈ collection, getDBQuery userID IDExternal sourceID r = true) :
    upsertOnInsert collection userID IDExternal sourceID ins = collection := by
  unfold upsertOnInsert
  rw [if_pos]
  exact List.any_eq_true.mpr (by simpa using h)

theorem upsertOnInsert_of_no_match {α : Type} (collection : List (DbRec α))
    (userID : Nat) (IDExternal sourceID : String) (ins : α)
    (h : ∀ r ∈ collection, getDBQuery userID IDExternal sourceID r = false) :
    upsertOnInsert collection userID IDExternal sourceID ins =
      collection ++ [⟨userID, sourceID, IDExternal, ins⟩] := by
  unfold upsertOnInsert
  rw [if_neg]
  intro hc
  obtain ⟨r, hr, hq⟩ := List.any_eq_true.mp hc
  rw [h r hr] at hq
  exact absurd hq (by simp)

theorem findOneAndUpdateCore_keyOf {α : Type} (collection : List (DbRec α))
    (userID : Nat) (IDExternal sourceID : String) (fields : α) :
    keyOf (findOneAndUpdateCore collection userID IDExternal sourceID fields).2 =
      (userID, IDExternal, sourceID) ∧
    (findOneAndUpdateCore collection userID IDExternal sourceID fields).2.fields =
      fields := by
  unfold findOneAndUpdateCore
  cases hf : collection.find? (getDBQuery userID IDExternal sourceID) with
  | none => simp [keyOf]
  | some r =>
    have hr := List.find?_some hf
    rw [getDBQuery_iff_keyOf] at hr
    constructor
    · simpa [keyOf] using hr
    · rfl

theorem findOneAndUpdateCore_of_match {α : Type} (collection : List (DbRec α))
    (userID : Nat) (IDExternal sourceID : String) (fields : α)
    (h : ∃ r ∈ collection, getDBQuery userID IDExternal sourceID r = true) :
    (findOneAndUpdateCore collection userID IDExternal sourceID fields).1.map keyOf =
      collection.map keyOf ∧
    (findOneAndUpdateCore collection userID IDExternal sourceID fields).2 ∈
      (findOneAndUpdateCore collection userID IDExternal sourceID fields).1 := by
  unfold findOneAndUpdateCore
  cases hf : collection.find? (getDBQuery userID IDExternal sourceID) with
  | none =>
    rw [List.find?_eq_none] at hf
    obtain ⟨r, hr, hq⟩ := h
    exact absurd hq (by simpa using hf r hr)
  | some r =>
    simp only []
    constructor
    · exact updateFirst_map_keyOf (getDBQuery userID IDExternal sourceID)
        (fun x => { x with fields := fields }) (fun x => rfl) collection
    · exact mem_updateFirst_of_find? _ _ collection r hf

theorem findOneAndUpdateCore_of_no_match {α : Type} (collection : List (DbRec α))
    (userID : Nat) (IDExternal sourceID : String) (fields : α)
    (h : ∀ r ∈ collection, getDBQuery userID IDExternal sourceID r = false) :
    findOneAndUpdateCore collection userID IDExternal sourceID fields =
      (collection ++ [⟨userID, sourceID, IDExternal, fields⟩],
        ⟨userID, sourceID, IDExternal, fields⟩) := by
  unfold findOneAndUpdateCore
  have hnone : collection.find? (getDBQuery userID IDExternal sourceID) = none :=
    List.find?_eq_none.mpr fun r hr => by simp [h r hr]
  rw [hnone]

/-- C3: reconciliation selects the cached record by the conjunction of
exactly the three keys of getDBQuery; the selected record carries exactly
the item's key triple with the updated fields, an existing record is updated
in place (the key content of the collection is unchanged) and a missing one
inserted; and reconciliations for key triples differing in any one component
always touch distinct records. -/
theorem claim_C3_reconciliation {α : Type} (collection : List (DbRec α))
    (userID : Nat) (IDExternal sourceID : String) (ins : Option α) (fields : α) :
    ((∀ r : DbRec α, getDBQuery userID IDExternal sourceID r = true ↔
        keyOf r = (userID, IDExternal, sourceID)) ∧
      keyOf (FindOneAndUpdateWithCollection collection userID IDExternal sourceID
        ins fields).2 = (userID, IDExternal, sourceID) ∧
      (FindOneAndUpdateWithCollection collection userID IDExternal sourceID
        ins fields).2.fields = fields) ∧
    ((∃ r ∈ collection, getDBQuery userID IDExternal sourceID r = true) →
      (FindOneAndUpdateWithCollection collection userID IDExternal sourceID
        ins fields).1.map keyOf = collection.map keyOf) ∧
    ((∀ r ∈ collection, getDBQuery userID IDExternal sourceID r = false) →
      (FindOneAndUpdateWithCollection collection userID IDExternal sourceID
        ins fields).1 =
        collection ++ [⟨userID, sourceID, IDExternal, fields⟩]) ∧
    (∀ (userID₂ : Nat) (IDExternal₂ sourceID₂ : String)
      (collection₂ : List (DbRec α)) (ins₂ : Option α) (fields₂ : α),
      (userID, IDExternal, sourceID) ≠ (userID₂, IDExternal₂, sourceID₂) →
      (FindOneAndUpdateWithCollection collection userID IDExternal sourceID
        ins fields).2 ≠
        (FindOneAndUpdateWithCollection collection₂ userID₂ IDExternal₂
          sourceID₂ ins₂ fields₂).2) := by
  have hkeys : ∀ (c : List (DbRec α)) (u : Nat) (e sid : String) (i : Option α)
      (f : α), keyOf (FindOneAndUpdateWithCollection c u e sid i f).2 = (u, e, sid) := by
    intro c u e sid i f
    cases i with
    | none => exact (findOneAndUpdateCore_keyOf c u e sid f).1
    | some iv => exact (findOneAndUpdateCore_keyOf _ u e sid f).1
  have hflds : (FindOneAndUpdateWithCollection collection userID IDExternal
      sourceID ins fields).2.fields = fields := by
    cases ins with
    | none => exact (findOneAndUpdateCore_keyOf collection userID IDExternal sourceID fields).2
    | some iv => exact (findOneAndUpdateCore_keyOf _ userID IDExternal sourceID fields).2
  refine ⟨⟨fun r => getDBQuery_iff_keyOf userID IDExternal sourceID r,
      hkeys collection userID IDExternal sourceID ins fields, hflds⟩, ?_, ?_, ?_⟩
  · intro h
    cases ins with
    | none =>
      exact (findOneAndUpdateCore_of_match collection userID IDExternal sourceID
        fields h).1
    | some iv =>
      show (findOneAndUpdateCore (upsertOnInsert collection userID IDExternal
        sourceID iv) userID IDExternal sourceID fields).1.map keyOf = _
      rw [upsertOnInsert_of_match collection userID IDExternal sourceID iv h]
      exact (findOneAndUpdateCore_of_match collection userID IDExternal sourceID
        fields h).1
  · intro h
    cases ins with
    | none =>
      rw [show FindOneAndUpdateWithCollection collection userID IDExternal
        sourceID none fields = findOneAndUpdateCore collection userID IDExternal
        sourceID fields from rfl,
        findOneAndUpdateCore_of_no_match collection userID IDExternal sourceID
          fields h]
    | some iv =>
      show (findOneAndUpdateCore (upsertOnInsert collection userID IDExternal
        sourceID iv) userID IDExternal sourceID fields).1 = _
      rw [upsertOnInsert_of_no_match collection userID IDExternal sourceID iv h]
      unfold findOneAndUpdateCore
      have hnone : collection.find? (getDBQuery userID IDExternal sourceID) = none :=
        List.find?_eq_none.mpr fun r hr => by simp [h r hr]
      rw [find?_append_singleton collection _ _ hnone
        (getDBQuery_self userID IDExternal sourceID iv)]
      simp only []
      rw [updateFirst_append_singleton _ _ collection _ hnone
        (getDBQuery_self userID IDExternal sourceID iv)]
  · intro userID₂ IDExternal₂ sourceID₂ collection₂ ins₂ fields₂ hne heq
    have h1 := hkeys collection userID IDExternal sourceID ins fields
    have h2 := hkeys collection₂ userID₂ IDExternal₂ sourceID₂ ins₂ fields₂
    rw [heq, h2] at h1
    exact hne h1.symm

/-- Witness for C3 at a concrete collection: the cached record for an
existing triple is updated in place, a fresh triple is inserted, and two
different triples are reconciled to distinct records. -/
theorem claim_C3_witness :
    (FindOneAndUpdateWithCollection
        [(⟨1, "gcal", "ev1", 10⟩ : DbRec Nat)] 1 "ev1" "gcal" none 99).1.map keyOf =
      [(⟨1, "gcal", "ev1", 10⟩ : DbRec Nat)].map keyOf ∧
    (FindOneAndUpdateWithCollection
        [(⟨1, "gcal", "ev1", 10⟩ : DbRec Nat)] 2 "ev1" "gcal" none 99).1 =
      [(⟨1, "gcal", "ev1", 10⟩ : DbRec Nat), ⟨2, "gcal", "ev1", 99⟩] ∧
    (FindOneAndUpdateWithCollection
        [(⟨1, "gcal", "ev1", 10⟩ : DbRec Nat)] 1 "ev1" "gcal" none 99).2 ≠
      (FindOneAndUpdateWithCollection
        [(⟨1, "gcal", "ev1", 10⟩ : DbRec Nat)] 2 "ev1" "gcal" none 99).2 := by
  refine ⟨?_, ?_, ?_⟩
  · exact (claim_C3_reconciliation [(⟨1, "gcal", "ev1", 10⟩ : DbRec Nat)]
      1 "ev1" "gcal" none 99).2.1 ⟨⟨1, "gcal", "ev1", 10⟩, by simp, by decide⟩
  · exact (claim_C3_reconciliation [(⟨1, "gcal", "ev1", 10⟩ : DbRec Nat)]
      2 "ev1" "gcal" none 99).2.2.1 (by decide)
  · exact (claim_C3_reconciliation [(⟨1, "gcal", "ev1", 10⟩ : DbRec Nat)]
      1 "ev1" "gcal" none 99).2.2.2 2 "ev1" "gcal"
      [(⟨1, "gcal", "ev1", 10⟩ : DbRec Nat)] none 99 (by decide)

theorem nodup_map_keyOf_append {α : Type} (collection : List (DbRec α))
    (x : DbRec α) (h : (collection.map keyOf).Nodup)
    (hx : ∀ r ∈ collection, keyOf r ≠ keyOf x) :
    ((collection ++ [x]).map keyOf).Nodup := by
  rw [List.map_append, List.nodup_append]
  refine ⟨h, by simp, ?_⟩
  intro a ha hb
  simp only [List.map_cons, List.map_nil, List.mem_singleton] at hb
  obtain ⟨r, hr, hkr⟩ := List.mem_map.mp ha
  exact hx r hr (by rw [hkr, hb])

/-- C5: the upsert helpers behind every fetch cache preserve the invariant
that at most one cached record exists per (user_id, source_id, id_external)
triple: under a duplicate-free collection both helpers leave the key content
duplicate-free, the touched record is present in the resulting collection
under the fetched item's triple, and re-fetching an already cached item
updates the existing record in place instead of inserting a duplicate. -/
theorem claim_C5_cache_invariant {α : Type} (collection : List (DbRec α))
    (userID : Nat) (IDExternal sourceID : String) (insFields updFields : α)
    (ins : Option α) (h : (collection.map keyOf).Nodup) :
    (((GetOrCreateWithCollection collection userID IDExternal sourceID
        insFields).1.map keyOf).Nodup ∧
      (∃ r, (GetOrCreateWithCollection collection userID IDExternal sourceID
          insFields).2 = some r ∧
        r ∈ (GetOrCreateWithCollection collection userID IDExternal sourceID
          insFields).1 ∧
        getDBQuery userID IDExternal sourceID r = true)) ∧
    (((FindOneAndUpdateWithCollection collection userID IDExternal sourceID
        ins updFields).1.map keyOf).Nodup ∧
      (FindOneAndUpdateWithCollection collection userID IDExternal sourceID
        ins updFields).2 ∈
        (FindOneAndUpdateWithCollection collection userID IDExternal sourceID
          ins updFields).1 ∧
      getDBQuery userID IDExternal sourceID
        (FindOneAndUpdateWithCollection collection userID IDExternal sourceID
          ins updFields).2 = true) ∧
    ((∃ r ∈ collection, getDBQuery userID IDExternal sourceID r = true) →
      (GetOrCreateWithCollection collection userID IDExternal sourceID
        insFields).1 = collection ∧
      (FindOneAndUpdateWithCollection collection userID IDExternal sourceID
        ins updFields).1.length = collection.length) := by
  have hsndq : getDBQuery userID IDExternal sourceID
      (FindOneAndUpdateWithCollection collection userID IDExternal sourceID
        ins updFields).2 = true := by
    rw [getDBQuery_iff_keyOf]
    cases ins with
    | none => exact (findOneAndUpdateCore_keyOf collection userID IDExternal
        sourceID updFields).1
    | some iv => exact (findOneAndUpdateCore_keyOf _ userID IDExternal
        sourceID updFields).1
  by_cases hmatch : ∃ r ∈ collection, getDBQuery userID IDExternal sourceID r = true
  · have hupsert : ∀ iv : α, upsertOnInsert collection userID IDExternal
        sourceID iv = collection := fun iv =>
      upsertOnInsert_of_match collection userID IDExternal sourceID iv hmatch
    have hcoreM := findOneAndUpdateCore_of_match collection userID IDExternal
      sourceID updFields hmatch
    have hfau1 : (FindOneAndUpdateWithCollection collection userID IDExternal
        sourceID ins updFields).1 = (findOneAndUpdateCore collection userID
        IDExternal sourceID updFields).1 := by
      cases ins with
      | none => rfl
      | some iv =>
        show (findOneAndUpdateCore (upsertOnInsert collection userID IDExternal
          sourceID iv) userID IDExternal sourceID updFields).1 = _
        rw [hupsert iv]
    have hfau2 : (FindOneAndUpdateWithCollection collection userID IDExternal
        sourceID ins updFields).2 = (findOneAndUpdateCore collection userID
        IDExternal sourceID updFields).2 := by
      cases ins with
      | none => rfl
      | some iv =>
        show (findOneAndUpdateCore (upsertOnInsert collection userID IDExternal
          sourceID iv) userID IDExternal sourceID updFields).2 = _
        rw [hupsert iv]
    refine ⟨⟨?_, ?_⟩, ⟨?_, ?_, hsndq⟩, ?_⟩
    · show ((upsertOnInsert collection userID IDExternal sourceID
        insFields).map keyOf).Nodup
      rw [hupsert insFields]
      exact h
    · cases hf : collection.find? (getDBQuery userID IDExternal sourceID) with
      | none =>
        rw [List.find?_eq_none] at hf
        obtain ⟨r, hr, hq⟩ := hmatch
        exact absurd hq (by simpa using hf r hr)
      | some r =>
        refine ⟨r, ?_, ?_, List.find?_some hf⟩
        · show (upsertOnInsert collection userID IDExternal sourceID
            insFields).find? (getDBQuery userID IDExternal sourceID) = some r
          rw [hupsert insFields]
          exact hf
        · show r ∈ (upsertOnInsert collection userID IDExternal sourceID
            insFields)
          rw [hupsert insFields]
          exact List.mem_of_find?_eq_some hf
    · rw [hfau1, hcoreM.1]
      exact h
    · rw [hfau1, hfau2]
      exact hcoreM.2
    · intro _
      constructor
      · show upsertOnInsert collection userID IDExternal sourceID insFields = _
        exact hupsert insFields
      · rw [hfau1]
        have := congrArg List.length hcoreM.1
        simpa using this
  · have hall : ∀ r ∈ collection, getDBQuery userID IDExternal sourceID r = false := by
      intro r hr
      cases hq : getDBQuery userID IDExternal sourceID r
      · rfl
      · exact absurd ⟨r, hr, hq⟩ hmatch
    have hfresh : ∀ (fv : α) (r : DbRec α), r ∈ collection →
        keyOf r ≠ keyOf (⟨userID, sourceID, IDExternal, fv⟩ : DbRec α) := by
      intro fv r hr hk
      have : getDBQuery userID IDExternal sourceID r = true := by
        rw [getDBQuery_iff_keyOf, hk, keyOf_self]
      rw [hall r hr] at this
      exact absurd this (by simp)
    have hnone : collection.find? (getDBQuery userID IDExternal sourceID) = none :=
      List.find?_eq_none.mpr fun r hr => by simp [hall r hr]
    refine ⟨⟨?_, ?_⟩, ⟨?_, ?_, hsndq⟩, ?_⟩
    · show ((upsertOnInsert collection userID IDExternal sourceID
        insFields).map keyOf).Nodup
      rw [upsertOnInsert_of_no_match collection userID IDExternal sourceID
        insFields hall]
      exact nodup_map_keyOf_append collection _ h (hfresh insFields)
    · refine ⟨⟨userID, sourceID, IDExternal, insFields⟩, ?_, ?_,
        getDBQuery_self userID IDExternal sourceID insFields⟩
      · show (upsertOnInsert collection userID IDExternal sourceID
          insFields).find? (getDBQuery userID IDExternal sourceID) = _
        rw [upsertOnInsert_of_no_match collection userID IDExternal sourceID
          insFields hall]
        exact find?_append_singleton collection _ _ hnone
          (getDBQuery_self userID IDExternal sourceID insFields)
      · show _ ∈ upsertOnInsert collection userID IDExternal sourceID insFields
        rw [upsertOnInsert_of_no_match collection userID IDExternal sourceID
          insFields hall]
        simp
    · cases ins with
      | none =>
        show ((findOneAndUpdateCore collection userID IDExternal sourceID
          updFields).1.map keyOf).Nodup
        rw [findOneAndUpdateCore_of_no_match collection userID IDExternal
          sourceID updFields hall]
        exact nodup_map_keyOf_append collection _ h (hfresh updFields)
      | some iv =>
        show ((findOneAndUpdateCore (upsertOnInsert collection userID IDExternal
          sourceID iv) userID IDExternal sourceID updFields).1.map keyOf).Nodup
        rw [upsertOnInsert_of_no_match collection userID IDExternal sourceID
          iv hall]
        have hex : ∃ r ∈ collection ++ [(⟨userID, sourceID, IDExternal, iv⟩ : DbRec α)],
            getDBQuery userID IDExternal sourceID r = true :=
          ⟨⟨userID, sourceID, IDExternal, iv⟩, by simp,
            getDBQuery_self userID IDExternal sourceID iv⟩
        rw [(findOneAndUpdateCore_of_match _ userID IDExternal sourceID
          updFields hex).1]
        exact nodup_map_keyOf_append collection _ h (hfresh iv)
    · cases ins with
      | none =>
        show (findOneAndUpdateCore collection userID IDExternal sourceID
          updFields).2 ∈ (findOneAndUpdateCore collection userID IDExternal
          sourceID updFields).1
        rw [findOneAndUpdateCore_of_no_match collection userID IDExternal
          sourceID updFields hall]
        simp
      | some iv =>
        show (findOneAndUpdateCore (upsertOnInsert collection userID IDExternal
          sourceID iv) userID IDExternal sourceID updFields).2 ∈
          (findOneAndUpdateCore (upsertOnInsert collection userID IDExternal
            sourceID iv) userID IDExternal sourceID updFields).1
        have hex : ∃ r ∈ upsertOnInsert collection userID IDExternal sourceID iv,
            getDBQuery userID IDExternal sourceID r = true := by
          rw [upsertOnInsert_of_no_match collection userID IDExternal sourceID
            iv hall]
          exact ⟨⟨userID, sourceID, IDExternal, iv⟩, by simp,
            getDBQuery_self userID IDExternal sourceID iv⟩
        exact (findOneAndUpdateCore_of_match _ userID IDExternal sourceID
          updFields hex).2
    · intro hc
      exact absurd hc hmatch

/-- Witness for C5 at a concrete cached collection containing the fetched
triple: the helpers keep the key set duplicate-free and re-fetching updates
in place. -/
theorem claim_C5_witness :
    ((GetOrCreateWithCollection [(⟨1, "gcal", "ev1", 10⟩ : DbRec Nat)]
        1 "ev1" "gcal" 55).1.map keyOf).Nodup ∧
    (GetOrCreateWithCollection [(⟨1, "gcal", "ev1", 10⟩ : DbRec Nat)]
        1 "ev1" "gcal" 55).1 = [(⟨1, "gcal", "ev1", 10⟩ : DbRec Nat)] ∧
    (FindOneAndUpdateWithCollection [(⟨1, "gcal", "ev1", 10⟩ : DbRec Nat)]
        1 "ev1" "gcal" none 99).1.length = 1 := by
  have h := claim_C5_cache_invariant [(⟨1, "gcal", "ev1", 10⟩ : DbRec Nat)]
    1 "ev1" "gcal" 55 99 none (by decide)
  have hm := h.2.2 ⟨⟨1, "gcal", "ev1", 10⟩, by simp, by decide⟩
  exact ⟨h.1.1, hm.1, hm.2⟩

/-- C4 counterexample: a cached pull request that was marked completed and
whose conditional check answers 304 is returned from the cache with no
detailed re-fetch, yet the reconciliation step does upsert it (marking it
incomplete), so the record is not returned unchanged and the upsert is not
skipped. -/
theorem claim_C4_counterexample :
    getPullRequestInfo [c4pr] 1 "42" (.ok 304) none = (some c4pr, false) ∧
    (handleFetchedPullRequest 2000 c4pr).1 = true ∧
    (handleFetchedPullRequest 2000 c4pr).2 ≠ c4pr := by
  refine ⟨by decide, by decide, by decide⟩

/-- C4 amended: for every pull request with a cached record carrying a
non-zero LastFetched time, the fetch first issues the conditional check with
If-Modified-Since set to the cached LastFetched time; on 304 the cached
record is returned with the detailed re-fetch skipped, and the upsert is
skipped too unless the cached record was marked completed, in which case it
is upserted with is_completed reset; on any other status the details are
fetched anew. -/
theorem claim_C4_amended (db : List PullRequest) (userID : Nat)
    (externalID : String) (token : Option String) (dbPR : PullRequest)
    (requestTime : Int) (fetchDetails : Option PullRequest)
    (hfound : GetPullRequestByExternalID db externalID userID = some dbPR)
    (hnz : goDateTimeIsZero dbPR.lastFetched = false)
    (hid : dbPR.id ≠ none) :
    (buildPRConditionalRequest token dbPR.lastFetched).ifModifiedSince =
      some dbPR.lastFetched ∧
    getPullRequestInfo db userID externalID (.ok 304) fetchDetails =
      (some dbPR, false) ∧
    (dbPR.isCompleted ≠ some true →
      handleFetchedPullRequest requestTime dbPR = (false, dbPR)) ∧
    (dbPR.isCompleted = some true →
      (handleFetchedPullRequest requestTime dbPR).1 = true ∧
      (handleFetchedPullRequest requestTime dbPR).2.isCompleted = some false) ∧
    (∀ s, s ≠ 304 →
      getPullRequestInfo db userID externalID (.ok s) fetchDetails =
        (fetchDetails, true)) := by
  refine ⟨?_, ?_, ?_, ?_, ?_⟩
  · simp [buildPRConditionalRequest, hnz]
  · simp [getPullRequestInfo, pullRequestHasBeenModified, hfound]
  · intro hc
    rw [handleFetchedPullRequest, if_pos ⟨hid, hc⟩]
  · intro hc
    have : ¬(dbPR.id ≠ none ∧ dbPR.isCompleted ≠ some true) := by
      intro ⟨_, h2⟩
      exact h2 hc
    rw [handleFetchedPullRequest, if_neg this]
    exact ⟨rfl, rfl⟩
  · intro st hst
    have hbeq : (st == 304) = false := by
      cases hb : st == 304
      · rfl
      · exact absurd (by simpa using hb : st = 304) hst
    simp [getPullRequestInfo, pullRequestHasBeenModified, hfound, hbeq]

/-- Witness for the amended C4 at a concrete cached pull request that is not
completed: the If-Modified-Since header carries the cached time, a 304
returns the cache unchanged with no upsert, and a 200 re-fetches. -/
theorem claim_C4_amended_witness :
    (buildPRConditionalRequest none c4cached.lastFetched).ifModifiedSince =
      some 500 ∧
    getPullRequestInfo [c4cached] 2 "77" (.ok 304) none = (some c4cached, false) ∧
    handleFetchedPullRequest 999 c4cached = (false, c4cached) ∧
    getPullRequestInfo [c4cached] 2 "77" (.ok 200) none = (none, true) := by
  have h := claim_C4_amended [c4cached] 2 "77" none c4cached 999 none
    (by decide) (by decide) (by decide)
  exact ⟨h.1, h.2.1, h.2.2.1 (by decide), h.2.2.2.2 200 (by decide)⟩

theorem renumberFrom_map_idOrdering (l : List ReorderableSubmodel) (i : Nat) :
    (normalizeOrderingIDs.renumberFrom i l).map (fun s => s.idOrdering) =
      (List.range l.length).map (fun j => ((i + j : Nat) : Int) + 1) := by
  induction l generalizing i with
  | nil => rfl
  | cons a as ih =>
    simp only [normalizeOrderingIDs.renumberFrom, List.map_cons, List.length_cons,
      List.range_succ_eq_map, List.map_map]
    congr 1
    rw [ih (i + 1)]
    apply List.map_congr_left
    intro j hj
    simp only [Function.comp_apply]
    push_cast
    ring

theorem renumberFrom_map_id (l : List ReorderableSubmodel) (i : Nat) :
    (normalizeOrderingIDs.renumberFrom i l).map (fun s => s.id) =
      l.map (fun s => s.id) := by
  induction l generalizing i with
  | nil => rfl
  | cons a as ih =>
    simp only [normalizeOrderingIDs.renumberFrom, List.map_cons]
    rw [ih (i + 1)]

theorem renumberFrom_eq_self (l : List ReorderableSubmodel) (i : Nat)
    (h : ∀ j (hj : j < l.length),
      (l.get ⟨j, hj⟩).idOrdering = ((i + j : Nat) : Int) + 1) :
    normalizeOrderingIDs.renumberFrom i l = l := by
  induction l generalizing i with
  | nil => rfl
  | cons a as ih =>
    have h0 := h 0 (by simp)
    simp only [List.get] at h0
    simp only [normalizeOrderingIDs.renumberFrom, List.cons.injEq]
    constructor
    · cases a with
      | mk aid aord =>
        simp only [ReorderableSubmodel.mk.injEq, and_true, true_and]
        simp only [] at h0
        omega
    · apply ih (i + 1)
      intro j hj
      have := h (j + 1) (by simpa using Nat.succ_lt_succ hj)
      simp only [List.get] at this
      rw [this]
      congr 1
      omega

/-- C2: the renumbering pass of AdjustOrderingIDsForCollection assigns to the
user's items, taken in ascending id_ordering order, the consecutive values
1..n (index + 1) with no gaps, preserving their relative order (the
renumbered sequence is the ascending permutation of the items), and it is
idempotent: a list already numbered consecutively 1..n is left unchanged. -/
theorem claim_C2_renumbering_pass (items : List ReorderableSubmodel) :
    ((normalizeOrderingIDs items).map (fun s => s.idOrdering) =
      (List.range items.length).map (fun j => Int.ofNat j + 1)) ∧
    ((normalizeOrderingIDs items).map (fun s => s.id) =
      (sortByKey (fun s => s.idOrdering) items).map (fun s => s.id)) ∧
    List.Perm (sortByKey (fun s => s.idOrdering) items) items ∧
    (sortByKey (fun s => s.idOrdering) items).Pairwise
      (fun a b => a.idOrdering ≤ b.idOrdering) ∧
    ((∀ j (hj : j < items.length),
        (items.get ⟨j, hj⟩).idOrdering = (j : Int) + 1) →
      normalizeOrderingIDs items = items) := by
  refine ⟨?_, ?_, sortByKey_perm _ items, sortByKey_sorted _ items, ?_⟩
  · unfold normalizeOrderingIDs
    rw [renumberFrom_map_idOrdering]
    rw [sortByKey_length]
    apply List.map_congr_left
    intro j hj
    simp
  · unfold normalizeOrderingIDs
    exact renumberFrom_map_id _ 0
  · intro h
    have hsorted : items.Pairwise (fun a b => a.idOrdering ≤ b.idOrdering) := by
      rw [List.pairwise_iff_get]
      intro i j hij
      rw [h i.1 i.2, h j.1 j.2]
      have : i.1 < j.1 := hij
      omega
    unfold normalizeOrderingIDs
    rw [sortByKey_eq_self_of_sorted _ items hsorted]
    apply renumberFrom_eq_self items 0
    intro j hj
    rw [h j hj]
    congr 1
    omega

/-- Witness for C2: the renumbering pass on a gapped three-item list and its
idempotence on an already consecutively numbered list. -/
theorem claim_C2_witness :
    (normalizeOrderingIDs [⟨10, 4⟩, ⟨11, 9⟩, ⟨12, 2⟩]).map
      (fun s => s.idOrdering) = [1, 2, 3] ∧
    normalizeOrderingIDs [⟨21, 1⟩, ⟨22, 2⟩] = [⟨21, 1⟩, ⟨22, 2⟩] := by
  constructor
  · rw [(claim_C2_renumbering_pass [⟨10, 4⟩, ⟨11, 9⟩, ⟨12, 2⟩]).1]
    decide
  · exact (claim_C2_renumbering_pass [⟨21, 1⟩, ⟨22, 2⟩]).2.2.2.2 (by decide)

theorem lookup_rankAssignments_of_not_mem (l : List Task) (i : Nat) (x : Nat)
    (hx : x ∉ l.map (fun t => t.id)) :
    (rankAssignments i l).lookup x = none := by
  induction l generalizing i with
  | nil => rfl
  | cons a as ih =>
    simp only [List.map_cons, List.mem_cons, not_or] at hx
    simp only [rankAssignments, List.lookup]
    rw [show (x == a.id) = false from by simpa using hx.1]
    exact ih (i + 1) hx.2

theorem lookup_rankAssignments_of_get (l : List Task) (i j : Nat)
    (hnd : (l.map (fun t => t.id)).Nodup) (hj : j < l.length) :
    (rankAssignments i l).lookup ((l.get ⟨j, hj⟩).id) =
      some (((i + j : Nat) : Int) + 1) := by
  induction l generalizing i j with
  | nil => simp at hj
  | cons a as ih =>
    simp only [List.map_cons, List.nodup_cons] at hnd
    cases j with
    | zero =>
      simp only [rankAssignments, List.get, List.lookup, beq_self_eq_true]
      norm_num
    | succ j' =>
      have hj' : j' < as.length := by simpa using hj
      have hmem : (as.get ⟨j', hj'⟩).id ∈ as.map (fun t => t.id) :=
        List.mem_map.mpr ⟨as.get ⟨j', hj'⟩, as.get_mem _ _, rfl⟩
      have hne : a.id ≠ (as.get ⟨j', hj'⟩).id := by
        intro hcontra
        rw [hcontra] at hnd
        exact hnd.1 hmem
      simp only [rankAssignments, List.get, List.lookup]
      rw [show ((as.get ⟨j', hj'⟩).id == a.id) = false from by simpa using hne.symm]
      rw [ih (i + 1) j' hnd.2 hj']
      have harith : i + 1 + j' = i + (j' + 1) := by omega
      rw [harith]

theorem eq_of_mem_nodup_id (db : List Task)
    (hnd : (db.map (fun t => t.id)).Nodup) (s t : Task)
    (hs : s ∈ db) (ht : t ∈ db) (hid : s.id = t.id) : s = t := by
  induction db with
  | nil => simp at hs
  | cons a as ih =>
    simp only [List.map_cons, List.nodup_cons] at hnd
    rcases List.mem_cons.mp hs with rfl | hs'
    · rcases List.mem_cons.mp ht with rfl | ht'
      · rfl
      · exact absurd (List.mem_map.mpr ⟨t, ht', hid.symm⟩) hnd.1
    · rcases List.mem_cons.mp ht with rfl | ht'
      · exact absurd (List.mem_map.mpr ⟨s, hs', hid⟩) hnd.1
      · exact ih hnd.2 hs' ht'

theorem applyAssignments_id (assignments : List (Nat × Int)) (t : Task) :
    (applyAssignments assignments t).id = t.id := by
  unfold applyAssignments
  cases assignments.lookup t.id <;> rfl

theorem reorderScopeQuery_applyAssignments (userID : Nat) (task0 : Task)
    (sec : Nat) (assignments : List (Nat × Int)) (t : Task) :
    reorderScopeQuery userID task0 sec (applyAssignments assignments t) =
      reorderScopeQuery userID task0 sec t := by
  unfold applyAssignments
  cases assignments.lookup t.id <;> rfl

theorem reorderPhases_map_id (db : List Task) (taskID userID : Nat) (k : Int)
    (IDTaskSection : Option Nat) (task0 : Task) (sec : Nat) :
    (reorderShiftPhase (reorderSetPhase db taskID userID (some k) IDTaskSection)
      taskID userID k task0 sec).map (fun t => t.id) =
      db.map (fun t => t.id) := by
  unfold reorderShiftPhase reorderSetPhase
  rw [List.map_map, List.map_map]
  apply List.map_congr_left
  intro t _
  simp only [Function.comp_apply]
  by_cases h1 : matchesTaskAndUser taskID userID t = true
  · rw [if_pos h1]
    by_cases h2 : reorderShiftFilter taskID userID k task0 sec
        (applyReorderSet (some k) IDTaskSection t) = true
    · rw [if_pos h2]; rfl
    · rw [if_neg h2]; rfl
  · rw [if_neg h1]
    by_cases h2 : reorderShiftFilter taskID userID k task0 sec t = true
    · rw [if_pos h2]
    · rw [if_neg h2]

theorem filter_of_map (f : Task → Task) (p : Task → Bool) (l : List Task)
    (hp : ∀ t, p (f t) = p t) :
    (l.map f).filter p = (l.filter p).map f := by
  induction l with
  | nil => rfl
  | cons a as ih =>
    simp only [List.map_cons, List.filter_cons, hp a]
    by_cases h : p a = true
    · rw [if_pos h, if_pos h]
      simp only [List.map_cons, ih]
    · rw [if_neg h, if_neg h]
      exact ih

/-- C1 amended: for a reorder request with target position k, ReOrderTask
first sets the moved task's id_ordering to k (marking it has_been_reordered
and storing the supplied section) and increments by exactly 1 the
id_ordering of every other non-deleted task of the same user in the same
scope whose id_ordering is at least k, leaving every other task unchanged;
it then renumbers the scoped tasks in ascending id_ordering order to the
consecutive ranks 1..n, so that after the call out-of-scope tasks keep their
id_ordering while every in-scope task (the moved one included) holds its
rank rather than the shifted value. -/
theorem claim_C1_amended (db : List Task) (taskID userID : Nat) (k : Int)
    (IDTaskSection : Option Nat) (task0 : Task)
    (hnd : (db.map (fun t => t.id)).Nodup)
    (hfind : db.find? (matchesTaskAndUser taskID userID) = some task0)
    (sec : Nat) (db2 final : List Task)
    (hsec : sec = IDTaskSection.getD task0.idTaskSection)
    (hdb2 : db2 = reorderShiftPhase
      (reorderSetPhase db taskID userID (some k) IDTaskSection)
      taskID userID k task0 sec)
    (hfinal : final = updateOrderingIDsV2 db2 (reorderScopeQuery userID task0 sec)) :
    ReOrderTask db taskID userID (some k) IDTaskSection = .ok final ∧
    (∀ i t, db.get? i = some t →
      ((t.id = taskID ∧ t.userId = userID) →
        db2.get? i = some { t with
          hasBeenReordered := true
          idOrdering := k
          idTaskSection := IDTaskSection.getD t.idTaskSection }) ∧
      (¬(t.id = taskID ∧ t.userId = userID) →
        (reorderShiftFilter taskID userID k task0 sec t = true →
          db2.get? i = some { t with idOrdering := t.idOrdering + 1 }) ∧
        (reorderShiftFilter taskID userID k task0 sec t = false →
          db2.get? i = some t))) ∧
    (∀ i t, db2.get? i = some t →
      reorderScopeQuery userID task0 sec t = false → final.get? i = some t) ∧
    (∀ i t, db2.get? i = some t →
      reorderScopeQuery userID task0 sec t = true →
      ∃ j, ∃ hj : j < (sortByKey (fun x => x.idOrdering)
          (db2.filter (reorderScopeQuery userID task0 sec))).length,
        (sortByKey (fun x => x.idOrdering)
          (db2.filter (reorderScopeQuery userID task0 sec))).get ⟨j, hj⟩ = t ∧
        final.get? i = some { t with idOrdering := ((j : Nat) : Int) + 1 }) ∧
    List.Perm
      ((final.filter (reorderScopeQuery userID task0 sec)).map
        (fun t => t.idOrdering))
      ((List.range (db2.filter (reorderScopeQuery userID task0 sec)).length).map
        (fun j => Int.ofNat j + 1)) := by
  subst hfinal
  subst hdb2
  subst hsec
  have hnd2 : ((reorderShiftPhase
      (reorderSetPhase db taskID userID (some k) IDTaskSection) taskID userID k
      task0 (IDTaskSection.getD task0.idTaskSection)).map (fun t => t.id)).Nodup := by
    rw [reorderPhases_map_id]
    exact hnd
  refine ⟨?_, ?_, ?_, ?_, ?_⟩
  · unfold ReOrderTask
    rw [hfind]
  · intro i t hget
    constructor
    · intro hmv
      have h1 : matchesTaskAndUser taskID userID t = true := by
        simp [matchesTaskAndUser, hmv.1, hmv.2]
      have h2 : reorderShiftFilter taskID userID k task0
          (IDTaskSection.getD task0.idTaskSection)
          (applyReorderSet (some k) IDTaskSection t) = false := by
        simp [reorderShiftFilter, applyReorderSet, hmv.1]
      simp only [reorderShiftPhase, reorderSetPhase, List.get?_map, hget,
        Option.map_some']
      rw [if_pos h1, if_neg (by simp [h2])]
      rfl
    · intro hnm
      have h1 : ¬ matchesTaskAndUser taskID userID t = true := by
        intro hc
        exact hnm (by simpa [matchesTaskAndUser] using hc)
      constructor
      · intro hsf
        simp only [reorderShiftPhase, reorderSetPhase, List.get?_map, hget,
          Option.map_some']
        rw [if_neg h1, if_pos hsf]
      · intro hsf
        simp only [reorderShiftPhase, reorderSetPhase, List.get?_map, hget,
          Option.map_some']
        rw [if_neg h1, if_neg (by simp [hsf])]
  · intro i t hget hq
    simp only [updateOrderingIDsV2, List.get?_map, hget, Option.map_some']
    have hmemt : t ∈ reorderShiftPhase
        (reorderSetPhase db taskID userID (some k) IDTaskSection) taskID userID k
        task0 (IDTaskSection.getD task0.idTaskSection) := List.get?_mem hget
    have hnotmem : t.id ∉ (sortByKey (fun x => x.idOrdering)
        ((reorderShiftPhase (reorderSetPhase db taskID userID (some k)
          IDTaskSection) taskID userID k task0
          (IDTaskSection.getD task0.idTaskSection)).filter
          (reorderScopeQuery userID task0
            (IDTaskSection.getD task0.idTaskSection)))).map (fun x => x.id) := by
      intro hc
      obtain ⟨u, hu, huid⟩ := List.mem_map.mp hc
      have humem := (sortByKey_perm (fun x : Task => x.idOrdering) _).mem_iff.mp hu
      have hup := List.mem_filter.mp humem
      have := eq_of_mem_nodup_id _ hnd2 u t hup.1 hmemt huid
      subst this
      rw [hup.2] at hq
      exact absurd hq (by simp)
    unfold applyAssignments
    rw [lookup_rankAssignments_of_not_mem _ 0 t.id hnotmem]
  · intro i t hget hq
    have hmemt : t ∈ reorderShiftPhase
        (reorderSetPhase db taskID userID (some k) IDTaskSection) taskID userID k
        task0 (IDTaskSection.getD task0.idTaskSection) := List.get?_mem hget
    have hmemf : t ∈ (reorderShiftPhase (reorderSetPhase db taskID userID
        (some k) IDTaskSection) taskID userID k task0
        (IDTaskSection.getD task0.idTaskSection)).filter
        (reorderScopeQuery userID task0 (IDTaskSection.getD task0.idTaskSection)) :=
      List.mem_filter.mpr ⟨hmemt, hq⟩
    have hmems : t ∈ sortByKey (fun x => x.idOrdering)
        ((reorderShiftPhase (reorderSetPhase db taskID userID (some k)
          IDTaskSection) taskID userID k task0
          (IDTaskSection.getD task0.idTaskSection)).filter
          (reorderScopeQuery userID task0
            (IDTaskSection.getD task0.idTaskSection))) :=
      (sortByKey_perm (fun x : Task => x.idOrdering) _).mem_iff.mpr hmemf
    obtain ⟨⟨j, hj⟩, hjt⟩ := List.mem_iff_get.mp hmems
    refine ⟨j, hj, hjt, ?_⟩
    simp only [updateOrderingIDsV2, List.get?_map, hget, Option.map_some']
    have hsortnd : ((sortByKey (fun x => x.idOrdering)
        ((reorderShiftPhase (reorderSetPhase db taskID userID (some k)
          IDTaskSection) taskID userID k task0
          (IDTaskSection.getD task0.idTaskSection)).filter
          (reorderScopeQuery userID task0
            (IDTaskSection.getD task0.idTaskSection)))).map (fun x => x.id)).Nodup := by
      refine ((sortByKey_perm (fun x : Task => x.idOrdering) _).map
        (fun x : Task => x.id)).nodup_iff.mpr ?_
      exact ((List.filter_sublist _).map (fun x : Task => x.id)).nodup hnd2
    have hlk := lookup_rankAssignments_of_get _ 0 j hsortnd hj
    rw [hjt] at hlk
    unfold applyAssignments
    rw [hlk]
    simp
  · rw [updateOrderingIDsV2]
    rw [filter_of_map _ _ _
      (fun t => reorderScopeQuery_applyAssignments userID task0
        (IDTaskSection.getD task0.idTaskSection) _ t)]
    rw [List.map_map]
    refine (((sortByKey_perm (fun x : Task => x.idOrdering) _).symm.map _).trans ?_)
    have hsortnd : ((sortByKey (fun x => x.idOrdering)
        ((reorderShiftPhase (reorderSetPhase db taskID userID (some k)
          IDTaskSection) taskID userID k task0
          (IDTaskSection.getD task0.idTaskSection)).filter
          (reorderScopeQuery userID task0
            (IDTaskSection.getD task0.idTaskSection)))).map (fun x => x.id)).Nodup := by
      refine ((sortByKey_perm (fun x : Task => x.idOrdering) _).map
        (fun x : Task => x.id)).nodup_iff.mpr ?_
      exact ((List.filter_sublist _).map (fun x : Task => x.id)).nodup hnd2
    apply List.Perm.of_eq
    apply List.ext_get
    · simp [sortByKey_length]
    · intro n h1 h2
      rw [List.get_map, List.get_map]
      have hlk := lookup_rankAssignments_of_get _ 0 n hsortnd
        (by simpa [sortByKey_length] using h2)
      simp only [Function.comp_apply]
      unfold applyAssignments
      rw [hlk]
      simp [List.get_range]

/-- C1 counterexample: three tasks of one user in one section with
consecutive orderings 1, 2, 3; moving task 1 to target position k = 3 ends
with the moved task at id_ordering 2, not k, and the task whose ordering was
at least k ends unchanged at 3 rather than incremented to 4, because
ReOrderTask renumbers the scope after the shift. -/
theorem claim_C1_counterexample :
    (ReOrderTask [c1t1, c1t2, c1t3] 1 1 (some 3) none).toOption.map
      (fun db => db.map (fun t => (t.id, t.idOrdering))) =
      some [(1, 2), (2, 1), (3, 3)] ∧
    (ReOrderTask [c1t1, c1t2, c1t3] 1 1 (some 3) none).toOption.map
      (fun db => db.map (fun t => (t.id, t.idOrdering))) ≠
      some [(1, 3), (2, 1), (3, 4)] := by
  exact ⟨by decide, by decide⟩

/-- Witness for the amended C1 at the concrete three-task instance: after
the shift phase the moved task holds k = 3 and the shifted task got exactly
plus 1. -/
theorem claim_C1_amended_witness :
    (reorderShiftPhase (reorderSetPhase [c1t1, c1t2, c1t3] 1 1 (some 3) none)
        1 1 3 c1t1 5).get? 0 =
      some { c1t1 with
        hasBeenReordered := true
        idOrdering := 3
        idTaskSection := 5 } ∧
    (reorderShiftPhase (reorderSetPhase [c1t1, c1t2, c1t3] 1 1 (some 3) none)
        1 1 3 c1t1 5).get? 2 = some { c1t3 with idOrdering := 4 } := by
  have h := claim_C1_amended [c1t1, c1t2, c1t3] 1 1 3 none c1t1 (by decide)
    (by decide) 5 _ _ rfl rfl rfl
  constructor
  · exact (h.2.1 0 c1t1 rfl).1 ⟨rfl, rfl⟩
  · exact ((h.2.1 2 c1t3 rfl).2 (by decide)).1 (by decide)

/-- C8 counterexample: a task-modify request that sets shared_access on a
task of a non General Task source but also carries an empty title is
rejected by the earlier field validation with 400 detail
"title cannot be empty", not with "only General Task tasks can be shared",
so the claimed response does not hold for every such request (the stored
state is still untouched). -/
theorem claim_C8_counterexample :
    c8task.sourceId ≠ TASK_SOURCE_ID_GT_TASK ∧
    c8params.fields.sharedAccess ≠ none ∧
    TaskModify [c8task] c8sources (fun _ => none) (fun _ => none)
      (fun _ => none) 0 true 1 1 c8params =
      ((400, "title cannot be empty"), []) := by
  exact ⟨by decide, by decide, by decide⟩

/-- C8 amended: a task-modify request that sets shared_access or a non-zero
shared_until on a task whose source is not the built-in General Task source
is rejected before any external call or database update; when the request
passes the earlier validation steps (section id, task lookup, non-empty
change set, known source, field validation, due-date parse, recurring
template id), the response is status 400 with detail
"only General Task tasks can be shared" and the effect trace is empty. -/
theorem claim_C8_amended (tasks : List Task) (sources : List (String × Bool))
    (parseObjectIDHex : String → Option Nat)
    (parseYMD parseRFC : String → Option Int) (now : Int)
    (externalModifyOk : Bool) (taskID userID : Nat)
    (modifyParams : TaskModifyParams) (task : Task) (isCompletable : Bool)
    (fields : TaskItemChangeableFields)
    (hsec : ∀ sct ∈ modifyParams.idTaskSection, (parseObjectIDHex sct).isSome)
    (hfind : tasks.find? (matchesTaskAndUser taskID userID) = some task)
    (hne : modifyParams ≠ {})
    (hsource : sources.lookup task.sourceId = some isCompletable)
    (hvalid : ValidateFields modifyParams.fields isCompletable task now = .ok fields)
    (hdue : ∀ d ∈ fields.dueDate, (parseYMD d).isSome ∨ (parseRFC d).isSome)
    (hrec : ∀ r ∈ fields.task.recurringTaskTemplateID, (parseObjectIDHex r).isSome)
    (hsrc : task.sourceId ≠ TASK_SOURCE_ID_GT_TASK)
    (hshare : fields.sharedUntil ≠ 0 ∨ fields.sharedAccess ≠ none) :
    TaskModify tasks sources parseObjectIDHex parseYMD parseRFC now
      externalModifyOk taskID userID modifyParams =
      ((400, "only General Task tasks can be shared"), []) := by
  have hfieldsne : fields ≠ ({} : TaskItemChangeableFields) := by
    intro hcontra
    rcases hshare with h | h <;> rw [hcontra] at h <;> exact h rfl
  have hcond1 : (modifyParams.idTaskSection.isSome &&
      (modifyParams.idTaskSection.bind parseObjectIDHex).isNone) = false := by
    cases hsct : modifyParams.idTaskSection with
    | none => rfl
    | some sct =>
      have := hsec sct (by rw [hsct]; rfl)
      simp [hsct, Option.isNone_eq_false_iff, this]
  have hdueb : (match fields.dueDate with
      | none => false
      | some d => (parseYMD d).isNone && (parseRFC d).isNone) = false := by
    cases hd : fields.dueDate with
    | none => rfl
    | some d =>
      simp only []
      rcases hdue d (by rw [hd]; rfl) with h | h
      · cases hps : parseYMD d with
        | none => rw [hps] at h; exact absurd h (by simp)
        | some v => simp [hps]
      · cases hps : parseRFC d with
        | none => rw [hps] at h; exact absurd h (by simp)
        | some v => simp [hps]
  have hrecb : (fields.task.recurringTaskTemplateID.isSome &&
      (fields.task.recurringTaskTemplateID.bind parseObjectIDHex).isNone) = false := by
    cases hr : fields.task.recurringTaskTemplateID with
    | none => rfl
    | some r =>
      have := hrec r (by rw [hr]; rfl)
      simp [hr, Option.isNone_eq_false_iff, this]
  unfold TaskModify
  rw [if_neg (by simp [hcond1])]
  rw [hfind]
  simp only []
  rw [if_neg hne, hsource]
  simp only []
  rw [hvalid]
  simp only []
  rw [if_neg (by simp [hdueb])]
  rw [if_neg hfieldsne]
  rw [if_neg (by simp [hrecb])]
  rw [if_pos ⟨hsrc, hshare⟩]

/-- Witness for the amended C8: a concrete request setting shared_access on
a Github-sourced task, with no other field set, is answered 400 with the
sharing detail and an empty effect trace. -/
theorem claim_C8_amended_witness :
    TaskModify [c8task] c8sources (fun _ => none) (fun _ => none)
      (fun _ => none) 0 true 1 1 c8paramsValid =
      ((400, "only General Task tasks can be shared"), []) := by
  exact claim_C8_amended [c8task] c8sources (fun _ => none) (fun _ => none)
    (fun _ => none) 0 true 1 1 c8paramsValid c8task false
    c8paramsValid.fields (by intro sct h; cases h) (by decide) (by decide)
    (by decide) (by rfl) (by intro d h; cases h) (by intro r h; cases h)
    (by decide) (by decide)

end TaskManager

